import Mathlib

/-!
Verification of the VITAMIN-E incremental reconstruction backend.

This file gives a shallow embedding, in Lean 4, of the track-graph and
keyframe-lifecycle core of the repository:

- `src/vitamine/points.py` (PointManager, Triangulation, warn_if_incorrect_match),
- `src/vitamine/visual_odometry/visual_odometry.py` (VisualOdometry),
- `src/vitamine/flow_estimation/keypoints.py` (reduce_redundancy, MatchMatrix),

and proves or refutes the specified properties against it.

Python dictionaries are embedded as association lists with first-match lookup
and in-place-overwrite assignment, which reproduces dict key uniqueness and
insertion order.  Machine floats never carry a claim here: 3D points, keypoints
and descriptors are opaque decidable data, and the numeric collaborators
(linear triangulation, essential-matrix estimation, PnP, bundle adjustment)
are abstracted as explicit function parameters, exactly as the spec treats
them (external collaborators, spec section 6).

Modules of the repository imported by the sources but absent from the
source tree (vitamine.point_keypoint_map, vitamine.keyframe_index,
vitamine.triangulation, vitamine.pose, vitamine.random, vitamine.utils,
vitamine.exceptions) are modelled from the spec; each such definition is
marked `Modelled from the spec:` in its doc comment.
-/

/-- Viewpoint identifier: an opaque, monotonically assigned integer (spec section 3). -/
abbrev Viewpoint := Nat

/-- Keypoint index inside one viewpoint's keypoint array. -/
abbrev KpIdx := Nat

/-- Row index into `PointManager.points` (a landmark identity in points.py). -/
abbrev PointIdx := Nat

/-- A 3D point.  Coordinates are opaque to every claim proved here, so an
integer triple stands in for the float64 triple. -/
abbrev Pt := Int × Int × Int

/-- A calibrated 2D keypoint (opaque coordinates). -/
abbrev Kp := Int × Int

/-- Python dict lookup `m[k]` as an association-list first-match lookup. -/
def dictGet {α β : Type} [DecidableEq α] (m : List (α × β)) (k : α) : Option β :=
  match m with
  | [] => none
  | (k', v) :: rest => if k' = k then some v else dictGet rest k

/-- Python dict membership test `k in m`. -/
def dictMem {α β : Type} [DecidableEq α] (m : List (α × β)) (k : α) : Bool :=
  (dictGet m k).isSome

/-- Python dict assignment `m[k] = v`: overwrite in place if the key is
present, append otherwise. -/
def dictAssign {α β : Type} [DecidableEq α] (m : List (α × β)) (k : α) (v : β) :
    List (α × β) :=
  match m with
  | [] => [(k, v)]
  | (k', v') :: rest =>
      if k' = k then (k, v) :: rest else (k', v') :: dictAssign rest k v

/-- Keys of an embedded dict, in insertion order. -/
def dictKeys {α β : Type} (m : List (α × β)) : List α :=
  m.map Prod.fst

/-- numpy boolean-mask indexing `xs[mask]`. -/
def maskFilter {α : Type} (xs : List α) (mask : List Bool) : List α :=
  (xs.zip mask).filterMap (fun xb => if xb.2 then some xb.1 else none)

/-- Errors surfaced by the embedded points.py code.  `nameError` embeds the
Python `NameError` raised when `warn_if_incorrect_match` evaluates its body
(see `warnIfIncorrectMatch`); `valueError` embeds the `ValueError` raised by
`PointManager.triangulate` when neither viewpoint has been observed. -/
inductive PMError where
  | nameError : PMError
  | valueError : PMError
deriving DecidableEq

/-- Embeds `warn_if_incorrect_match` (points.py lines 13-20).  The source
intends to emit a non-fatal warning when the two matched keypoints indicate
different 3D points, but its body reads the names `warnings`, `index0`,
`viewpoint0`, `index1`, `viewpoint1`, none of which is bound (the module never
imports `warnings` and the function's parameters are `point_index0` and
`point_index1`), so reaching the conflicting branch raises `NameError` at run
time.  The embedding returns `.error .nameError` exactly on that branch. -/
def warnIfIncorrectMatch (pointIndex0 pointIndex1 : PointIdx) :
    Except PMError Unit :=
  if pointIndex0 ≠ pointIndex1 then .error .nameError else .ok ()

/-- Embeds the `Triangulation` class of points.py (lines 23-37).  The
constructor captures two poses and the two keypoint arrays; `triangulate`
calls `linear_triangulation` on the keypoints at the two indices and converts
`InvalidDepthException` (non-positive or non-finite depth, spec section 4.2)
into `None` after printing the error.  The numeric routine
`linear_triangulation` lives in the module vitamine.triangulation, absent from
the source tree, so the whole composite is abstracted as the partial function
`linTri`: `linTri i0 i1 = none` embeds the caught `InvalidDepthException`. -/
structure Triangulation where
  linTri : KpIdx → KpIdx → Option Pt

/-- `Triangulation.triangulate` (points.py lines 28-37): look up the two
keypoints and triangulate, returning `none` on an invalid depth. -/
def Triangulation.triangulate (t : Triangulation) (index0 index1 : KpIdx) :
    Option Pt :=
  t.linTri index0 index1

/-- The mutable state of a `PointManager` (points.py lines 40-44):
`point_indices` is the defaultdict `{keyframe index: {keypoint index: point
index}}` and `points` the `(n, 3)` array of 3D points. -/
structure PMState where
  pointIndices : List (Viewpoint × List (KpIdx × PointIdx))
  points : List Pt
deriving DecidableEq

/-- The state `PointManager.__init__` builds: empty defaultdict, empty array. -/
def PMState.empty : PMState :=
  { pointIndices := [], points := [] }

/-- Read `point_indices[v]` under defaultdict semantics: a missing viewpoint
reads as the empty inner dict. -/
def PMState.innerOf (s : PMState) (v : Viewpoint) : List (KpIdx × PointIdx) :=
  (dictGet s.pointIndices v).getD []

/-- The single assignment `point_indices[v][k] = pi` (defaultdict: create the
inner dict if missing, then assign). -/
def PMState.bindKp (s : PMState) (v : Viewpoint) (k : KpIdx) (pi : PointIdx) :
    PMState :=
  { s with pointIndices :=
      dictAssign s.pointIndices v (dictAssign (s.innerOf v) k pi) }

/-- `PointManager.add_point_` (points.py lines 46-50): append one point row,
return the new state together with the new point index (the length before the
append). -/
def addPointAux (s : PMState) (p : Pt) : PMState × PointIdx :=
  ({ s with points := s.points ++ [p] }, s.points.length)

/-- `PointManager.add_point` (points.py lines 52-56): store the point and bind
both endpoints of the match to its index. -/
def addPoint (s : PMState) (p : Pt) (v0 v1 : Viewpoint) (k0 k1 : KpIdx) :
    PMState :=
  let si := addPointAux s p
  (si.1.bindKp v0 k0 si.2).bindKp v1 k1 si.2

/-- `PointManager.associate_existing` (points.py lines 58-61): copy the point
index bound to `(src, srcIdx)` onto `(dst, dstIdx)`.  The `none` branch embeds
the `KeyError` Python would raise on a missing source binding; every call site
in points.py guards it with a membership test, so the branch is unreachable
there and the embedding returns the state unchanged. -/
def associateExisting (s : PMState) (src dst : Viewpoint)
    (srcIdx dstIdx : KpIdx) : PMState :=
  match dictGet (s.innerOf src) srcIdx with
  | some pi => s.bindKp dst dstIdx pi
  | none => s

/-- The loop of `PointManager.both_observed` (points.py lines 95-128) over the
zipped match pairs.  Membership of each index is recomputed against the
current state on every iteration, matching the live `dict.keys()` views the
source tests against.  On a pair whose endpoints are both bound,
`warn_if_incorrect_match` runs; its `NameError` aborts the loop carrying the
state mutated so far (Python mutates `self` in place). -/
def bothObservedLoop (t : Triangulation) (v0 v1 : Viewpoint)
    (pairs : List (KpIdx × KpIdx)) (s : PMState) :
    Except (PMError × PMState) PMState :=
  match pairs with
  | [] => .ok s
  | (i0, i1) :: rest =>
    match dictGet (s.innerOf v0) i0, dictGet (s.innerOf v1) i1 with
    | some p0, some p1 =>
      match warnIfIncorrectMatch p0 p1 with
      | .ok _ => bothObservedLoop t v0 v1 rest s
      | .error e => .error (e, s)
    | some _, none =>
      bothObservedLoop t v0 v1 rest (associateExisting s v0 v1 i0 i1)
    | none, some _ =>
      bothObservedLoop t v0 v1 rest (associateExisting s v1 v0 i1 i0)
    | none, none =>
      match t.triangulate i0 i1 with
      | none => bothObservedLoop t v0 v1 rest s
      | some p => bothObservedLoop t v0 v1 rest (addPoint s p v0 v1 i0 i1)

/-- `PointManager.both_observed` (points.py lines 85-128): process the zipped
index lists. -/
def bothObserved (t : Triangulation) (v0 v1 : Viewpoint)
    (indices0 indices1 : List KpIdx) (s : PMState) :
    Except (PMError × PMState) PMState :=
  bothObservedLoop t v0 v1 (indices0.zip indices1) s

/-- The loop of `PointManager.either_one_observed` (points.py lines 130-152):
the source endpoint already bound is associated across; otherwise the pair is
triangulated, a failed depth check (`none`) skipping the pair. -/
def eitherOneObservedLoop (t : Triangulation) (src dst : Viewpoint)
    (pairs : List (KpIdx × KpIdx)) (s : PMState) : PMState :=
  match pairs with
  | [] => s
  | (srcIdx, dstIdx) :: rest =>
    match dictGet (s.innerOf src) srcIdx with
    | some _ =>
      eitherOneObservedLoop t src dst rest
        (associateExisting s src dst srcIdx dstIdx)
    | none =>
      match t.triangulate srcIdx dstIdx with
      | none => eitherOneObservedLoop t src dst rest s
      | some p =>
        eitherOneObservedLoop t src dst rest (addPoint s p src dst srcIdx dstIdx)

/-- `PointManager.either_one_observed` (points.py lines 130-152). -/
def eitherOneObserved (t : Triangulation) (src dst : Viewpoint)
    (srcIndices dstIndices : List KpIdx) (s : PMState) : PMState :=
  eitherOneObservedLoop t src dst (srcIndices.zip dstIndices) s

/-- `PointManager.triangulate` (points.py lines 154-180).  The `Triangulation`
object built on the two poses and keypoint arrays arrives as `t`; the two
columns of `matches01` arrive as `indices0`, `indices1`.  When neither
viewpoint appears in `point_indices` the source raises
`ValueError("Neither viewpoint0 nor viewpoint1 has been observed")`; the
embedding returns `.error (.valueError, s)` carrying the state at the raise,
which no preceding statement has mutated. -/
def pmTriangulate (t : Triangulation) (v0 v1 : Viewpoint)
    (indices0 indices1 : List KpIdx) (s : PMState) :
    Except (PMError × PMState) PMState :=
  let hasObserved0 := dictMem s.pointIndices v0
  let hasObserved1 := dictMem s.pointIndices v1
  if hasObserved0 && hasObserved1 then
    bothObservedLoop t v0 v1 (indices0.zip indices1) s
  else if hasObserved0 then
    .ok (eitherOneObservedLoop t v0 v1 (indices0.zip indices1) s)
  else if hasObserved1 then
    .ok (eitherOneObservedLoop t v1 v0 (indices1.zip indices0) s)
  else
    .error (.valueError, s)

/-- Opaque descriptor data attached to a keypoint set. -/
abbrev Desc := List Nat

/-- Opaque image data. -/
abbrev Img := Nat

/-- Landmark identity in visual_odometry.py: the source draws an 18-byte
random hash (`vitamine.random.random_bytes`, module absent from the tree).
Modelled from the spec: design note section 9 states that a monotonic counter
is an equally valid substitute for the random opaque identifiers, so hashes
are embedded as naturals drawn from a counter threaded through the state. -/
abbrev PointHash := Nat

/-- A per-viewpoint `point_keypoint_map`: dict from point hash to the keypoint
index observing that landmark in the viewpoint. -/
abbrev PKMap := List (PointHash × KpIdx)

/-- `KeypointDescriptor` namedtuple (module vitamine.keypoints, absent from
the tree).  Modelled from the spec: calibrated keypoints plus descriptors
(spec section 2 data flow). -/
structure KD where
  keypoints : List Kp
  descriptors : Desc
deriving DecidableEq

/-- `Pose` of module vitamine.pose (absent from the tree).  Modelled from the
spec: rotation (as a rotation vector `omega`, the component the source
exports) plus translation; `Pose.identity()` is the reference for the first
keyframe (spec section 3). -/
structure Pose where
  omega : Pt
  t : Pt
deriving DecidableEq

/-- `Pose.identity()`. -/
def Pose.identity : Pose :=
  { omega := (0, 0, 0), t := (0, 0, 0) }

/-- The single error visual_odometry.py raises out of `add`:
`NotEnoughInliersException` (module vitamine.exceptions, absent from the
tree; modelled from the spec error taxonomy, section 7). -/
inductive VOErr where
  | notEnoughInliers : VOErr
deriving DecidableEq

/-- The mutable state of a `VisualOdometry` object (visual_odometry.py lines
71-89).  `nextViewpoint` embeds the sequential id assignment of
`KeyframeIndices` (module vitamine.keyframe_index, absent from the tree;
modelled from the spec, section 4.4: `add_new` assigns the next sequential id
and appends it to the active ordered sequence).  `nextHash` is the landmark
hash counter (see `PointHash`). -/
structure VOState where
  activeViewpoints : List Viewpoint
  nextViewpoint : Viewpoint
  pointKeypointMaps : List (Viewpoint × PKMap)
  pointDict : List (PointHash × Pt)
  kds : List (Viewpoint × KD)
  poses : List (Viewpoint × Pose)
  images : List (Viewpoint × Img)
  nextHash : PointHash
deriving DecidableEq

/-- The state `VisualOdometry.__init__` builds: everything empty. -/
def VOState.empty : VOState :=
  { activeViewpoints := [], nextViewpoint := 0, pointKeypointMaps := [],
    pointDict := [], kds := [], poses := [], images := [], nextHash := 0 }

/-- Configuration constants of `VisualOdometry.__init__`:
`min_matches` (default 60) and `max_active_keyframes` (default 8). -/
structure VOCfg where
  minMatches : Nat
  maxActiveKeyframes : Nat
deriving DecidableEq

/-- The external collaborators of the pipeline (spec sections 1 and 6), passed
as explicit functions: keypoint extraction, undistortion, descriptor
matching, essential-matrix pose bootstrap, PnP solving (which may fail with
`NotEnoughInliers`), batch two-view triangulation, and bundle adjustment.
`triangulate` embeds `Triangulation.triangulate` of module
vitamine.triangulation (absent from the tree); modelled from the spec,
section 4.2: it returns the validly-triangulated points together with a
boolean validity mask aligned with the input matches (the source asserts at
visual_odometry.py line 237 that the point array has exactly as many rows as
the mask has true entries, i.e. invalid entries are excluded). -/
structure Externals where
  extract : Img → List Kp × Desc
  undistort : List Kp → List Kp
  matcher : KD → KD → List (KpIdx × KpIdx)
  estimatePoseChange : List Kp → List Kp → List (KpIdx × KpIdx) → Pose
  solvePnp : List Pt → List Kp → Except VOErr Pose
  triangulate : Pose → Pose → List Kp → List Kp → List (KpIdx × KpIdx) →
    List Pt × List Bool
  tryRunBa : List Nat → List Nat → List Pose → List Pt → List Kp →
    List Pose × List Pt

/-- `generate_hashes` (visual_odometry.py lines 21-22), under the counter
model of `PointHash`: the next `n` fresh hashes. -/
def generateHashes (nextHash n : Nat) : List PointHash :=
  (List.range n).map (fun i => nextHash + i)

/-- `value_list` (visual_odometry.py lines 44-45): gather `dict_[k]` for the
given keys.  A missing key raises `KeyError` in Python; the embedding
substitutes `dflt`, and every exercised path keeps the keys inside the dict. -/
def valueList {β : Type} (d : List (Nat × β)) (keys : List Nat) (dflt : β) :
    List β :=
  keys.map (fun k => (dictGet d k).getD dflt)

/-- `unique_point_hashes` (visual_odometry.py lines 48-52): the union of the
maps' key sets.  The source materializes `list(set(...))`, whose order is an
unspecified detail of the Python hash set; the embedding fixes
first-occurrence order. -/
def uniquePointHashes (maps : List PKMap) : List PointHash :=
  (maps.flatMap dictKeys).dedup

/-- `projection_correspondences` (visual_odometry.py lines 55-68): for each
(viewpoint position j, point-hash position i) pair where the viewpoint's map
binds the hash, record the indices and the observed keypoint.  Returns
`(viewpoint_indices, point_indices, keypoints)`. -/
def projectionCorrespondences (maps : List PKMap) (kds : List KD)
    (pointHashes : List PointHash) : List Nat × List Nat × List Kp :=
  let ij := (kds.zip maps).enum.flatMap (fun jp =>
    pointHashes.enum.filterMap (fun ih =>
      match dictGet jp.2.2 ih.2 with
      | some ki => some (ih.1, jp.1, jp.2.1.keypoints.getD ki (0, 0))
      | none => none))
  (ij.map (fun e => e.2.1), ij.map (fun e => e.1), ij.map (fun e => e.2.2))

/-- Modelled from the spec: `init_point_keypoint_map` of module
vitamine.point_keypoint_map (absent from the tree) — a fresh empty
hash-to-keypoint-index dict. -/
def initPointKeypointMap : PKMap := []

/-- Whether keypoint index `i` is bound to some landmark hash in the map
(`i` occurs among the map's values). -/
def kpBound (m : PKMap) (i : KpIdx) : Bool :=
  (m.find? (fun e => e.2 == i)).isSome

/-- The first landmark hash bound to keypoint index `i` (0 if unbound; only
queried for bound indices). -/
def hashForIdx (m : PKMap) (i : KpIdx) : PointHash :=
  ((m.find? (fun e => e.2 == i)).map Prod.fst).getD 0

/-- Modelled from the spec: `copy_required` of module
vitamine.point_keypoint_map (absent from the tree).  Spec section 4.5,
TRACKING case "exactly one triangulated: bind the untriangulated endpoint to
the known landmark": the mask selects the match pairs whose source endpoint
already has a landmark and whose destination endpoint does not. -/
def copyRequired (srcMap dstMap : PKMap) (srcIdxs dstIdxs : List KpIdx) :
    List Bool :=
  (srcIdxs.zip dstIdxs).map (fun p => kpBound srcMap p.1 && !(kpBound dstMap p.2))

/-- Modelled from the spec: `accumulate_shareable` of module
vitamine.point_keypoint_map (absent from the tree) — the landmark hashes the
given (already bound) source keypoint indices observe, in order. -/
def accumulateShareable (m : PKMap) (idxs : List KpIdx) : List PointHash :=
  idxs.map (hashForIdx m)

/-- Modelled from the spec: `triangulation_required` of module
vitamine.point_keypoint_map (absent from the tree).  Spec section 4.5,
TRACKING case "neither triangulated": the mask selects the match pairs with
no landmark on either endpoint. -/
def triangulationRequired (map0 map1 : PKMap)
    (matchPairs : List (KpIdx × KpIdx)) : List Bool :=
  matchPairs.map (fun p => !(kpBound map0 p.1) && !(kpBound map1 p.2))

/-- Modelled from the spec: `correspondences` of module
vitamine.point_keypoint_map (absent from the tree).  Spec section 4.5:
aggregate all point-keypoint correspondences recovered across the active
viewpoints' matches — for every match pair whose old endpoint observes a
landmark, pair that landmark's hash with the new frame's keypoint index.
Returns `(point_hashes, keypoint_indices)`. -/
def correspondences (maps : List PKMap)
    (matchess : List (List (KpIdx × KpIdx))) : List PointHash × List KpIdx :=
  let pairs := (maps.zip matchess).flatMap (fun mm =>
    mm.2.filterMap (fun p =>
      (mm.1.find? (fun e => e.2 == p.1)).map (fun e => (e.1, p.2))))
  (pairs.map Prod.fst, pairs.map Prod.snd)

/-- Modelled from the spec: `merge_dicts` of module vitamine.utils (absent
from the tree) — dict union, the second dict's entries overriding. -/
def mergeDicts {α β : Type} [DecidableEq α] (d0 d1 : List (α × β)) :
    List (α × β) :=
  d1.foldl (fun acc kv => dictAssign acc kv.1 kv.2) d0

/-- Read `self.point_keypoint_maps[v]` (present on every exercised path). -/
def VOState.mapOf (s : VOState) (v : Viewpoint) : PKMap :=
  (dictGet s.pointKeypointMaps v).getD []

/-- Read `self.kds[v]` (present on every exercised path). -/
def VOState.kdOf (s : VOState) (v : Viewpoint) : KD :=
  (dictGet s.kds v).getD ⟨[], []⟩

/-- Read `self.poses[v]` (present on every exercised path). -/
def VOState.poseOf (s : VOState) (v : Viewpoint) : Pose :=
  (dictGet s.poses v).getD Pose.identity

/-- `VisualOdometry.export_points` (visual_odometry.py lines 91-92): the
current landmark positions, in dict insertion order. -/
def exportPoints (s : VOState) : List Pt :=
  s.pointDict.map Prod.snd

/-- `VisualOdometry.export_poses` (visual_odometry.py lines 94-96):
`[pose.omega, pose.t]` for every viewpoint ever given a pose, by sorted
viewpoint id. -/
def exportPoses (s : VOState) : List (Pt × Pt) :=
  (List.insertionSort (· ≤ ·) (dictKeys s.poses)).map
    (fun v => ((s.poseOf v).omega, (s.poseOf v).t))

/-- `VisualOdometry.init_first` (visual_odometry.py lines 155-156): the first
keyframe takes the identity pose. -/
def initFirst (s : VOState) (v1 : Viewpoint) : VOState :=
  { s with poses := dictAssign s.poses v1 Pose.identity }

/-- `VisualOdometry.try_init_first_two` (visual_odometry.py lines 158-186):
match against the sole active viewpoint; fewer than `min_matches` matches
raises `NotEnoughInliers` (the error carries the state at the raise, which no
preceding statement has mutated); otherwise bootstrap: identity reference
pose, relative pose from the essential matrix, batch triangulation, matches
with invalid depth discarded, one fresh hash per valid point, both endpoints
bound, and the point dict replaced wholesale. -/
def tryInitFirstTwo (E : Externals) (cfg : VOCfg) (s : VOState)
    (v1 : Viewpoint) (kd1 : KD) : Except (VOErr × VOState) VOState :=
  let v0 := s.activeViewpoints.headD 0
  let kd0 := s.kdOf v0
  let matches01 := E.matcher kd0 kd1
  if matches01.length < cfg.minMatches then .error (.notEnoughInliers, s)
  else
    let pose0 := Pose.identity
    let pose1 := E.estimatePoseChange kd0.keypoints kd1.keypoints matches01
    let td := E.triangulate pose0 pose1 kd0.keypoints kd1.keypoints matches01
    let matchesValid := maskFilter matches01 td.2
    let pointHashes := generateHashes s.nextHash td.1.length
    let pointDict := (pointHashes.zip td.1).foldl
      (fun d p => dictAssign d p.1 p.2) []
    let pkms := (matchesValid.zip pointHashes).foldl
      (fun mm p => (dictAssign mm.1 p.2 p.1.1, dictAssign mm.2 p.2 p.1.2))
      (initPointKeypointMap, initPointKeypointMap)
    .ok { s with
      pointKeypointMaps :=
        dictAssign (dictAssign s.pointKeypointMaps v0 pkms.1) v1 pkms.2,
      poses := dictAssign (dictAssign s.poses v0 pose0) v1 pose1,
      pointDict := pointDict,
      nextHash := s.nextHash + td.1.length }

/-- One iteration of the per-viewpoint loop of
`VisualOdometry.try_add_keyframe` (visual_odometry.py lines 209-246).  The
accumulator carries the stored maps (the source mutates
`self.point_keypoint_maps[viewpoint0]` in place through the alias
`point_keypoint_map0`), the new frame's map, the new-point dict, and the hash
counter. -/
def takStep (E : Externals) (s : VOState) (pose1 : Pose) (kd1 : KD)
    (acc : List (Viewpoint × PKMap) × PKMap × List (PointHash × Pt) × PointHash)
    (vm : Viewpoint × List (KpIdx × KpIdx)) :
    List (Viewpoint × PKMap) × PKMap × List (PointHash × Pt) × PointHash :=
  let pkMaps := acc.1
  let map1 := acc.2.1
  let newPd := acc.2.2.1
  let nh := acc.2.2.2
  let v0 := vm.1
  let matches01 := vm.2
  let map0 := (dictGet pkMaps v0).getD []
  let pose0 := s.poseOf v0
  let kd0 := s.kdOf v0
  let indices0 := matches01.map Prod.fst
  let indices1 := matches01.map Prod.snd
  let mask01 := copyRequired map0 map1 indices0 indices1
  let mask10 := copyRequired map1 map0 indices1 indices0
  let pointHashes0 := accumulateShareable map0 (maskFilter indices0 mask01)
  let pointHashes1 := accumulateShareable map1 (maskFilter indices1 mask10)
  let map1a := (pointHashes0.zip (maskFilter indices1 mask01)).foldl
    (fun m p => dictAssign m p.1 p.2) map1
  let map0a := (pointHashes1.zip (maskFilter indices0 mask10)).foldl
    (fun m p => dictAssign m p.1 p.2) map0
  let mask := triangulationRequired map0a map1a matches01
  let matchesT := maskFilter matches01 mask
  let td := E.triangulate pose0 pose1 kd0.keypoints kd1.keypoints matchesT
  let newHashes := generateHashes nh td.1.length
  let tIndices0 := maskFilter (matchesT.map Prod.fst) td.2
  let tIndices1 := maskFilter (matchesT.map Prod.snd) td.2
  let map0b := (newHashes.zip tIndices0).foldl
    (fun m p => dictAssign m p.1 p.2) map0a
  let map1b := (newHashes.zip tIndices1).foldl
    (fun m p => dictAssign m p.1 p.2) map1a
  let newPd2 := (newHashes.zip td.1).foldl
    (fun d p => dictAssign d p.1 p.2) newPd
  (dictAssign pkMaps v0 map0b, map1b, newPd2, nh + td.1.length)

/-- `VisualOdometry.try_add_keyframe` (visual_odometry.py lines 188-250):
collect the active viewpoints with at least `min_matches` matches (raise
`NotEnoughInliers` when none); solve the new pose by PnP over the aggregated
correspondences (its failure also aborts, both raises carrying the so-far
unmutated state); then run the per-viewpoint bind loop and commit the new
frame's map, points and pose. -/
def tryAddKeyframe (E : Externals) (cfg : VOCfg) (s : VOState)
    (v1 : Viewpoint) (kd1 : KD) : Except (VOErr × VOState) VOState :=
  let vms := s.activeViewpoints.foldl (fun acc v0 =>
    let m01 := E.matcher (s.kdOf v0) kd1
    if m01.length < cfg.minMatches then acc else acc ++ [(v0, m01)]) []
  if vms.length = 0 then .error (.notEnoughInliers, s)
  else
    let maps := vms.map (fun vm => s.mapOf vm.1)
    let ck := correspondences maps (vms.map Prod.snd)
    match E.solvePnp (valueList s.pointDict ck.1 (0, 0, 0))
        (ck.2.map (fun i => kd1.keypoints.getD i (0, 0))) with
    | .error e => .error (e, s)
    | .ok pose1 =>
      let accF := vms.foldl (takStep E s pose1 kd1)
        (s.pointKeypointMaps, initPointKeypointMap, [], s.nextHash)
      .ok { s with
        pointKeypointMaps := dictAssign accF.1 v1 accF.2.1,
        pointDict := mergeDicts s.pointDict accF.2.2.1,
        poses := dictAssign s.poses v1 pose1,
        nextHash := accF.2.2.2 }

/-- `VisualOdometry.run_ba` (visual_odometry.py lines 127-153): gather the
active viewpoints' maps, poses and keypoint sets, call the external bundle
adjuster, and write the refined points and poses back. -/
def runBa (E : Externals) (s : VOState) (viewpoints : List Viewpoint) :
    VOState :=
  let maps := viewpoints.map s.mapOf
  let poses := viewpoints.map s.poseOf
  let kds := viewpoints.map s.kdOf
  let pointHashes := uniquePointHashes maps
  let pointArray := valueList s.pointDict pointHashes (0, 0, 0)
  let pc := projectionCorrespondences maps kds pointHashes
  let res := E.tryRunBa pc.1 pc.2.1 poses pointArray pc.2.2
  { s with
    pointDict := (pointHashes.zip res.2).foldl
      (fun d p => dictAssign d p.1 p.2) s.pointDict,
    poses := (viewpoints.zip res.1).foldl
      (fun d p => dictAssign d p.1 p.2) s.poses }

/-- `VisualOdometry.add` (visual_odometry.py lines 102-125).  Keypoint
extraction with at most `min_keypoints` (default 8) keypoints prints an error
and returns `-1` with the state untouched (no exception).  Otherwise the
frame takes the next sequential viewpoint id, the branch for the current
state machine stage runs (either raise propagates, carrying the state the
branch left behind), then the frame is registered — kds, image, active
window append — and bundle adjustment runs once three keyframes are active. -/
def voAdd (E : Externals) (cfg : VOCfg) (minKeypoints : Nat) (s : VOState)
    (img : Img) : Except (VOErr × VOState) (VOState × Int) :=
  let kpd := E.extract img
  if kpd.1.length ≤ minKeypoints then .ok (s, -1)
  else
    let viewpoint := s.nextViewpoint
    let kd : KD := ⟨E.undistort kpd.1, kpd.2⟩
    let branch :=
      if s.activeViewpoints.length = 0 then .ok (initFirst s viewpoint)
      else if s.activeViewpoints.length = 1 then
        tryInitFirstTwo E cfg s viewpoint kd
      else tryAddKeyframe E cfg s viewpoint kd
    match branch with
    | .error e => .error e
    | .ok s1 =>
      let s2 := { s1 with
        kds := dictAssign s1.kds viewpoint kd,
        images := dictAssign s1.images viewpoint img,
        activeViewpoints := s1.activeViewpoints ++ [viewpoint],
        nextViewpoint := viewpoint + 1 }
      let s3 := if 3 ≤ s2.activeViewpoints.length then
        runBa E s2 s2.activeViewpoints else s2
      .ok (s3, (viewpoint : Int))

/-- `VisualOdometry.try_remove` (visual_odometry.py lines 253-259): a no-op
returning `False` while the active count is at most `max_active_keyframes`;
otherwise remove the oldest active viewpoint (position 0) and return `True`. -/
def tryRemove (cfg : VOCfg) (s : VOState) : Bool × VOState :=
  if s.activeViewpoints.length ≤ cfg.maxActiveKeyframes then (false, s)
  else (true, { s with activeViewpoints := s.activeViewpoints.drop 1 })

example :
    addPoint PMState.empty (1, 2, 3) 0 1 4 5 =
      { pointIndices := [(0, [(4, 0)]), (1, [(5, 0)])],
        points := [(1, 2, 3)] } := by
  decide

example :
    pmTriangulate ⟨fun _ _ => none⟩ 7 8 [0] [0] PMState.empty =
      .error (.valueError, PMState.empty) := by
  rfl

/-- `rows[rows == r] = l0`: relabel every occurrence of `r` to `l0`
(keypoints.py line 70). -/
def relabel (rows : List Nat) (r l0 : Nat) : List Nat :=
  rows.map (fun x => if x = r then l0 else x)

/-- The inner loop of `reduce_along` (keypoints.py lines 69-70): fold the
relabelling over the snapshot tail `rows_[1:]`, target `rows_[0]`. -/
def mergeLoop (rows : List Nat) (rs : List Nat) (l0 : Nat) : List Nat :=
  match rs with
  | [] => rows
  | r :: rest => mergeLoop (relabel rows r l0) rest l0

/-- The mask `np.logical_and(cols == column, data == u)` (keypoints.py
line 65). -/
def keyMask (cols data : List Nat) (j u : Nat) : List Bool :=
  List.zipWith (fun c d => c == j && d == u) cols data

/-- One unique-value step of `reduce_along` (keypoints.py lines 64-70):
snapshot the labels at the masked positions and merge them all onto the
first.  The empty case cannot arise for values drawn from the column but
keeps the function total. -/
def reduceKey (cols data rows : List Nat) (j u : Nat) : List Nat :=
  match maskFilter rows (keyMask cols data j u) with
  | [] => rows
  | l0 :: rest => mergeLoop rows rest l0

/-- `np.unique`: the distinct values in ascending order. -/
def uniqueSorted (l : List Nat) : List Nat :=
  List.insertionSort (· ≤ ·) l.dedup

/-- `data[cols == column]` (keypoints.py line 64). -/
def colValues (cols data : List Nat) (j : Nat) : List Nat :=
  maskFilter data (cols.map (fun c => c == j))

/-- `reduce_along` (keypoints.py lines 62-71): process every unique value of
the column. -/
def reduceAlong (cols data rows : List Nat) (j : Nat) : List Nat :=
  (uniqueSorted (colValues cols data j)).foldl
    (fun rw u => reduceKey cols data rw j u) rows

/-- `reduce_redundancy` (keypoints.py lines 61-77): sweep the columns
`0 .. max(cols)`; `cols` and `data` are never mutated, so only the final
`rows` is returned. -/
def reduceRedundancy (rows cols data : List Nat) : List Nat :=
  (List.range (cols.foldr max 0 + 1)).foldl
    (fun rw j => reduceAlong cols data rw j) rows

/-- The `MatchMatrix` accumulator (keypoints.py lines 92-182): COO triplets
`rows`, `cols`, `data` plus the running row count. -/
structure MatchMatrix where
  rows : List Nat
  cols : List Nat
  data : List Nat
  nRows : Nat
deriving DecidableEq

/-- `MatchMatrix.__init__`. -/
def MatchMatrix.empty : MatchMatrix :=
  { rows := [], cols := [], data := [], nRows := 0 }

/-- `MatchMatrix.add` (keypoints.py lines 171-182): append, for each match
pair, one fresh row index repeated twice (`np.repeat`), the two viewpoint
columns (`np.tile`), and the two keypoint indices (`matches.flatten()`). -/
def MatchMatrix.add (m : MatchMatrix) (viewpoint1 viewpoint2 : Nat)
    (matchPairs : List (Nat × Nat)) : MatchMatrix :=
  let n := matchPairs.length
  { rows := m.rows ++ (List.range n).flatMap (fun i => [m.nRows + i, m.nRows + i]),
    cols := m.cols ++ matchPairs.flatMap (fun _ => [viewpoint1, viewpoint2]),
    data := m.data ++ matchPairs.flatMap (fun p => [p.1, p.2]),
    nRows := m.nRows + n }

/-- One pairwise match edge `((viewpointA, idxA), (viewpointB, idxB))`. -/
abbrev MatchEdge := (Nat × Nat) × (Nat × Nat)

/-- Feed a batch of single match edges into a fresh `MatchMatrix` via
`MatchMatrix.add`. -/
def buildMatchMatrix (edges : List MatchEdge) : MatchMatrix :=
  edges.foldl (fun m e => m.add e.1.1 e.2.1 [(e.1.2, e.2.2)]) MatchMatrix.empty

/-- The reduced row labels `MatchMatrix.matrix` computes (keypoints.py lines
184-197) before the final nan-matrix compaction `to_matrix`: entry `2k` and
`2k+1` carry the track label of edge `k`, and `to_matrix` groups entries into
one output row per distinct label, so these labels are exactly the track
partition of the batch. -/
def trackLabels (edges : List MatchEdge) : List Nat :=
  let m := buildMatchMatrix edges
  reduceRedundancy m.rows m.cols m.data

/-- The track label assigned to edge `k` of the batch. -/
def trackLabel (edges : List MatchEdge) (k : Nat) : Nat :=
  (trackLabels edges).getD (2 * k) 0

/-- Closed form of the rows array `buildMatchMatrix` produces. -/
def entryRows (n : Nat) : List Nat :=
  (List.range n).flatMap (fun k => [k, k])

/-- Closed form of the cols array `buildMatchMatrix` produces. -/
def entryCols (edges : List MatchEdge) : List Nat :=
  edges.flatMap (fun e => [e.1.1, e.2.1])

/-- Closed form of the data array `buildMatchMatrix` produces. -/
def entryData (edges : List MatchEdge) : List Nat :=
  edges.flatMap (fun e => [e.1.2, e.2.2])

/-- The viewpoint of endpoint `b` (0 or 1) of an edge. -/
def colAt (e : MatchEdge) (b : Nat) : Nat :=
  if b = 0 then e.1.1 else e.2.1

/-- The keypoint index of endpoint `b` (0 or 1) of an edge. -/
def dataAt (e : MatchEdge) (b : Nat) : Nat :=
  if b = 0 then e.1.2 else e.2.2

/-- The sequence of `(column, unique value)` keys `reduce_redundancy`
processes, in source order: columns `0 .. max(cols)` outermost, the sorted
distinct values of each column innermost.  It depends only on `cols` and
`data`, which the algorithm never mutates. -/
def keySeq (cols data : List Nat) : List (Nat × Nat) :=
  (List.range (cols.foldr max 0 + 1)).flatMap
    (fun j => (uniqueSorted (colValues cols data j)).map (fun u => (j, u)))

/-- Two label arrays induce the same partition of positions `0 .. m-1`, up to
the position translation `prm`: positions are co-tracked exactly when their
translated positions are. -/
def labelEquiv (m : Nat) (prm : Nat → Nat) (rows1 rows2 : List Nat) : Prop :=
  ∀ p q, p < m → q < m →
    (rows1.getD p 0 = rows1.getD q 0 ↔ rows2.getD (prm p) 0 = rows2.getD (prm q) 0)

/-- `prm` is a permutation of the positions `0 .. m-1` carrying the first
COO triplet pointwise onto the second: translated positions hold the same
column and the same datum. -/
def posCorr (m : Nat) (prm : Nat → Nat) (cols1 data1 cols2 data2 : List Nat) :
    Prop :=
  (∀ p, p < m → prm p < m ∧ cols2.getD (prm p) 0 = cols1.getD p 0 ∧
    data2.getD (prm p) 0 = data1.getD p 0) ∧
  (∀ p', p' < m → ∃ p, p < m ∧ prm p = p')

/-- A small concrete instantiation of the external collaborators, used to
exercise the pipeline on explicit runs: every image yields nine keypoints,
descriptors identify the source image, matching is scripted per descriptor
pair, batch triangulation declares every match valid (so its output length
equals its input length, the compaction contract the source asserts), and
PnP always solves. -/
def demoExternals : Externals where
  extract := fun img => ((List.range 9).map (fun i => ((i : Int), (img : Int))), [img])
  undistort := fun kps => kps
  matcher := fun kd0 kd1 =>
    if kd0.descriptors = [100] ∧ kd1.descriptors = [101] then [(0, 0), (1, 1)]
    else if kd0.descriptors = [100] ∧ kd1.descriptors = [102] then [(0, 5), (1, 5)]
    else []
  estimatePoseChange := fun _ _ _ => Pose.identity
  solvePnp := fun _ _ => .ok Pose.identity
  triangulate := fun _ _ _ _ ms => (ms.map (fun _ => (1, 1, 1)), ms.map (fun _ => true))
  tryRunBa := fun _ _ poses pts _ => (poses, pts)

/-- `VisualOdometry(camera, distortion, max_active_keyframes=1, min_matches=1)`. -/
def demoCfg : VOCfg :=
  { minMatches := 1, maxActiveKeyframes := 1 }

/-- First frame (image 100) pushed through `add` from the fresh state. -/
def demoRun1 : Except (VOErr × VOState) (VOState × Int) :=
  voAdd demoExternals demoCfg 8 VOState.empty 100

/-- Second frame (image 101): the bootstrap transition. -/
def demoRun2 : Except (VOErr × VOState) (VOState × Int) :=
  demoRun1.bind (fun r => voAdd demoExternals demoCfg 8 r.1 101)

/-- Third frame (image 102): a TRACKING step whose scripted matches bind the
new frame's keypoint 5 against two distinct landmarks. -/
def demoRun3 : Except (VOErr × VOState) (VOState × Int) :=
  demoRun2.bind (fun r => voAdd demoExternals demoCfg 8 r.1 102)

/-- Like `demoExternals` but extraction yields exactly eight keypoints — the
boundary value of `add`'s `min_keypoints=8` check. -/
def demoExternals8 : Externals :=
  { demoExternals with
      extract := fun img =>
        ((List.range 8).map (fun i => ((i : Int), (img : Int))), [img]) }

/-- The state a points.py call leaves behind, whether it returns normally or
raises: Python mutates the manager in place, so an exception carries the
partially mutated state. -/
def resState (r : Except (PMError × PMState) PMState) : PMState :=
  match r with
  | .ok s => s
  | .error (_, s) => s

/-- Every inner `{keypoint index: point index}` dict has pairwise distinct
keys — the structural invariant Python dicts enforce. -/
def innerNodup (s : PMState) : Prop :=
  ∀ v : Viewpoint, (dictKeys (s.innerOf v)).Nodup

/-- The functional-binding property of spec section 8: within one viewpoint,
a keypoint index is never bound to two different landmarks at once. -/
def pmFunctional (s : PMState) : Prop :=
  ∀ (v : Viewpoint) (k : KpIdx) (pi1 pi2 : PointIdx),
    (k, pi1) ∈ s.innerOf v → (k, pi2) ∈ s.innerOf v → pi1 = pi2

/-- The states reachable through the PointManager operations: the fresh
manager, then any sequence of `add_point`, `associate_existing` and
`triangulate` calls (the latter covering `both_observed` and
`either_one_observed`, including the state carried out of a raise). -/
inductive PMReach : PMState → Prop where
  | init : PMReach PMState.empty
  | stepAddPoint : ∀ s p v0 v1 k0 k1, PMReach s →
      PMReach (addPoint s p v0 v1 k0 k1)
  | stepAssociate : ∀ s src dst si di, PMReach s →
      PMReach (associateExisting s src dst si di)
  | stepTriangulate : ∀ t v0 v1 is0 is1 s, PMReach s →
      PMReach (resState (pmTriangulate t v0 v1 is0 is1 s))

/-! ## Generic dictionary lemmas -/

theorem dictGet_dictAssign_self {α β : Type} [DecidableEq α]
    (m : List (α × β)) (k : α) (v : β) :
    dictGet (dictAssign m k v) k = some v := by
  induction m with
  | nil => simp [dictAssign, dictGet]
  | cons hd tl ih =>
    obtain ⟨k', v'⟩ := hd
    by_cases h : k' = k
    · simp [dictAssign, h, dictGet]
    · simp [dictAssign, h, dictGet, ih]

theorem dictGet_dictAssign_ne {α β : Type} [DecidableEq α]
    (m : List (α × β)) (k k' : α) (v : β) (h : k' ≠ k) :
    dictGet (dictAssign m k v) k' = dictGet m k' := by
  have hks : ¬(k = k') := fun h' => h h'.symm
  induction m with
  | nil => simp [dictAssign, dictGet, hks]
  | cons hd tl ih =>
    obtain ⟨k0, v0⟩ := hd
    by_cases h0 : k0 = k
    · subst h0
      simp [dictAssign, dictGet, hks]
    · simp only [dictAssign, if_neg h0, dictGet]
      by_cases h1 : k0 = k'
      · simp [h1]
      · simp [h1, ih]

theorem mem_dictKeys_dictAssign {α β : Type} [DecidableEq α]
    (m : List (α × β)) (k a : α) (v : β)
    (h : a ∈ dictKeys (dictAssign m k v)) : a ∈ dictKeys m ∨ a = k := by
  induction m with
  | nil => simpa [dictAssign, dictKeys] using h
  | cons hd tl ih =>
    obtain ⟨k0, v0⟩ := hd
    by_cases h0 : k0 = k
    · subst h0
      rcases (by simpa [dictAssign, dictKeys] using h) with h1 | h1
      · exact .inr h1
      · exact .inl (by simp [dictKeys, h1])
    · rcases (by simpa [dictAssign, h0, dictKeys] using h) with h1 | h1
      · exact .inl (by simp [dictKeys, h1])
      · rcases ih (by simpa [dictKeys] using h1) with h2 | h2
        · exact .inl (by simp [dictKeys] at h2 ⊢; exact .inr h2)
        · exact .inr h2

theorem nodup_dictKeys_dictAssign {α β : Type} [DecidableEq α]
    (m : List (α × β)) (k : α) (v : β) (h : (dictKeys m).Nodup) :
    (dictKeys (dictAssign m k v)).Nodup := by
  induction m with
  | nil => simp [dictAssign, dictKeys]
  | cons hd tl ih =>
    obtain ⟨k0, v0⟩ := hd
    simp only [dictKeys, List.map_cons, List.nodup_cons] at h
    by_cases h0 : k0 = k
    · subst h0
      simpa [dictAssign, dictKeys] using h
    · simp only [dictAssign, if_neg h0, dictKeys, List.map_cons, List.nodup_cons]
      refine ⟨fun hmem => ?_, ih h.2⟩
      rcases mem_dictKeys_dictAssign tl k k0 v hmem with h1 | h1
      · exact h.1 h1
      · exact h0 h1

theorem assoc_functional {α β : Type} [DecidableEq α]
    (m : List (α × β)) (h : (dictKeys m).Nodup) (k : α) (v v' : β)
    (h1 : (k, v) ∈ m) (h2 : (k, v') ∈ m) : v = v' := by
  induction m with
  | nil => cases h1
  | cons hd tl ih =>
    obtain ⟨k0, v0⟩ := hd
    simp only [dictKeys, List.map_cons, List.nodup_cons] at h
    rcases List.mem_cons.mp h1 with e1 | e1 <;>
      rcases List.mem_cons.mp h2 with e2 | e2
    · rw [Prod.mk.injEq] at e1 e2
      rw [e1.2, e2.2]
    · exfalso
      rw [Prod.mk.injEq] at e1
      exact h.1 (e1.1 ▸ (List.mem_map.mpr ⟨(k, v'), e2, rfl⟩))
    · exfalso
      rw [Prod.mk.injEq] at e2
      exact h.1 (e2.1 ▸ (List.mem_map.mpr ⟨(k, v), e1, rfl⟩))
    · exact ih h.2 e1 e2

/-! ## PointManager invariant lemmas -/

theorem innerOf_bindKp (s : PMState) (v v' : Viewpoint) (k : KpIdx)
    (pi : PointIdx) :
    (s.bindKp v k pi).innerOf v' =
      if v' = v then dictAssign (s.innerOf v) k pi else s.innerOf v' := by
  unfold PMState.bindKp PMState.innerOf
  by_cases h : v' = v
  · subst h
    simp [dictGet_dictAssign_self]
  · simp [dictGet_dictAssign_ne _ _ _ _ h, h]

theorem innerNodup_bindKp (s : PMState) (v : Viewpoint) (k : KpIdx)
    (pi : PointIdx) (h : innerNodup s) : innerNodup (s.bindKp v k pi) := by
  intro v'
  rw [innerOf_bindKp]
  by_cases hv : v' = v
  · simp only [if_pos hv]
    exact nodup_dictKeys_dictAssign _ _ _ (h v)
  · simpa [if_neg hv] using h v'

theorem innerOf_points_irrel (s : PMState) (ps : List Pt) (v : Viewpoint) :
    ({ s with points := ps } : PMState).innerOf v = s.innerOf v := rfl

theorem innerNodup_addPoint (s : PMState) (p : Pt) (v0 v1 : Viewpoint)
    (k0 k1 : KpIdx) (h : innerNodup s) : innerNodup (addPoint s p v0 v1 k0 k1) := by
  unfold addPoint addPointAux
  refine innerNodup_bindKp _ _ _ _ (innerNodup_bindKp _ _ _ _ ?_)
  intro v
  exact h v

theorem innerNodup_associateExisting (s : PMState) (src dst : Viewpoint)
    (si di : KpIdx) (h : innerNodup s) :
    innerNodup (associateExisting s src dst si di) := by
  unfold associateExisting
  cases dictGet (s.innerOf src) si with
  | none => exact h
  | some pi => exact innerNodup_bindKp _ _ _ _ h

theorem innerNodup_bothObservedLoop (t : Triangulation) (v0 v1 : Viewpoint) :
    ∀ (pairs : List (KpIdx × KpIdx)) (s : PMState), innerNodup s →
      innerNodup (resState (bothObservedLoop t v0 v1 pairs s)) := by
  intro pairs
  induction pairs with
  | nil => intro s hs; exact hs
  | cons hd rest ih =>
    intro s hs
    obtain ⟨i0, i1⟩ := hd
    cases h0 : dictGet (s.innerOf v0) i0 with
    | some p0 =>
      cases h1 : dictGet (s.innerOf v1) i1 with
      | some p1 =>
        cases hw : warnIfIncorrectMatch p0 p1 with
        | ok u =>
          simpa only [bothObservedLoop, h0, h1, hw] using ih s hs
        | error e =>
          simpa only [bothObservedLoop, h0, h1, hw, resState] using hs
      | none =>
        simpa only [bothObservedLoop, h0, h1] using
          ih _ (innerNodup_associateExisting s v0 v1 i0 i1 hs)
    | none =>
      cases h1 : dictGet (s.innerOf v1) i1 with
      | some p1 =>
        simpa only [bothObservedLoop, h0, h1] using
          ih _ (innerNodup_associateExisting s v1 v0 i1 i0 hs)
      | none =>
        cases ht : t.triangulate i0 i1 with
        | none =>
          simpa only [bothObservedLoop, h0, h1, ht] using ih s hs
        | some p =>
          simpa only [bothObservedLoop, h0, h1, ht] using
            ih _ (innerNodup_addPoint s p v0 v1 i0 i1 hs)

theorem innerNodup_eitherOneObservedLoop (t : Triangulation)
    (src dst : Viewpoint) :
    ∀ (pairs : List (KpIdx × KpIdx)) (s : PMState), innerNodup s →
      innerNodup (eitherOneObservedLoop t src dst pairs s) := by
  intro pairs
  induction pairs with
  | nil => intro s hs; exact hs
  | cons hd rest ih =>
    intro s hs
    obtain ⟨si, di⟩ := hd
    simp only [eitherOneObservedLoop]
    cases h0 : dictGet (s.innerOf src) si with
    | some p0 => exact ih _ (innerNodup_associateExisting s src dst si di hs)
    | none =>
      cases ht : t.triangulate si di with
      | none => exact ih s hs
      | some p => exact ih _ (innerNodup_addPoint s p src dst si di hs)

theorem innerNodup_pmTriangulate (t : Triangulation) (v0 v1 : Viewpoint)
    (is0 is1 : List KpIdx) (s : PMState) (h : innerNodup s) :
    innerNodup (resState (pmTriangulate t v0 v1 is0 is1 s)) := by
  cases h0 : dictMem s.pointIndices v0 with
  | true =>
    cases h1 : dictMem s.pointIndices v1 with
    | true =>
      simpa [pmTriangulate, h0, h1] using
        innerNodup_bothObservedLoop t v0 v1 (is0.zip is1) s h
    | false =>
      simpa [pmTriangulate, h0, h1, resState] using
        innerNodup_eitherOneObservedLoop t v0 v1 (is0.zip is1) s h
  | false =>
    cases h1 : dictMem s.pointIndices v1 with
    | true =>
      simpa [pmTriangulate, h0, h1, resState] using
        innerNodup_eitherOneObservedLoop t v1 v0 (is1.zip is0) s h
    | false =>
      simpa [pmTriangulate, h0, h1, resState] using h

theorem innerNodup_of_reach (s : PMState) (h : PMReach s) : innerNodup s := by
  induction h with
  | init => intro v; simp [PMState.empty, PMState.innerOf, dictGet, dictKeys]
  | stepAddPoint s p v0 v1 k0 k1 _ ih => exact innerNodup_addPoint s p v0 v1 k0 k1 ih
  | stepAssociate s src dst si di _ ih =>
    exact innerNodup_associateExisting s src dst si di ih
  | stepTriangulate t v0 v1 is0 is1 s _ ih =>
    exact innerNodup_pmTriangulate t v0 v1 is0 is1 s ih

/-! ## Claim C1 -/

/-- C1 (amended).  For every state reachable through the PointManager
operations (`add_point`, `associate_existing`, `triangulate` with its
`both_observed` / `either_one_observed` loops, raises included), each
`(viewpoint, keypoint_index)` is bound to at most one landmark: the
`point_indices` tables stay functional.  (The per-viewpoint
`point_keypoint_maps` bind loops of `try_add_keyframe` do NOT preserve the
property in general — see the counterexample theorem.) -/
theorem pointManager_binding_functional (s : PMState) (h : PMReach s) :
    pmFunctional s := by
  intro v k pi1 pi2 h1 h2
  exact assoc_functional _ (innerNodup_of_reach s h v) k pi1 pi2 h1 h2

/-- Witness for C1: the invariant, instantiated at a concrete reachable
state (one `add_point` from the fresh manager). -/
theorem pointManager_binding_functional_witness :
    pmFunctional (addPoint PMState.empty (1, 2, 3) 0 1 4 5) :=
  pointManager_binding_functional _
    (PMReach.stepAddPoint _ _ _ _ _ _ PMReach.init)

/-- Counterexample for C1 as stated.  Three frames through `add` (the run
`demoRun3`) reach a state in which viewpoint 2's `point_keypoint_map` holds
the entries `(0, 5)` and `(1, 5)`: keypoint index 5 of viewpoint 2 is bound
to the two distinct landmarks with hashes 0 and 1 simultaneously.  The bind
loops of `try_add_keyframe` compute their copy masks before performing the
copies, so a match list that repeats a new-frame keypoint index (here the
scripted matcher output `[(0, 5), (1, 5)]`, two old endpoints carrying
different landmarks) binds that keypoint to both landmarks. -/
theorem tracking_double_binding_cex :
    demoRun3.toOption.map (fun r => dictGet r.1.pointKeypointMaps 2) =
      some (some [(0, 5), (1, 5)]) ∧
    (0, 5) ∈ ([(0, 5), (1, 5)] : PKMap) ∧
    (1, 5) ∈ ([(0, 5), (1, 5)] : PKMap) ∧
    (0 : PointHash) ≠ 1 := by
  exact ⟨by rfl, by decide, by decide, by decide⟩

/-! ## Claim C4 -/

/-- C4: the conflict path is fatal, contrary to the claim.  In a state where
the matched pair `(0, 0)` is bound to point index 0 in viewpoint 0 but point
index 1 in viewpoint 1, `both_observed` reaches `warn_if_incorrect_match`,
whose body evaluates the unbound names `warnings`/`index0`/... and therefore
raises `NameError` instead of logging: the frame aborts with the error
rather than skipping the pair and continuing.  (No binding is overwritten
and no landmarks are fused — the state carried out equals the entry state —
but the non-fatality the claim and the spec describe does not hold.) -/
theorem both_observed_conflict_raises :
    bothObserved ⟨fun _ _ => none⟩ 0 1 [0] [0]
      { pointIndices := [(0, [(0, 0)]), (1, [(0, 1)])],
        points := [(0, 0, 0), (1, 1, 1)] } =
      .error (.nameError,
        { pointIndices := [(0, [(0, 0)]), (1, [(0, 1)])],
          points := [(0, 0, 0), (1, 1, 1)] }) := by
  rfl

/-! ## Claim C7 -/

/-- C7: a matched pair that fails the depth check (the embedded
`linear_triangulation` returns `none`, i.e. raises `InvalidDepth`) and has
neither endpoint bound creates no landmark and no binding, and the loop
continues on the remaining pairs from the unchanged state. -/
theorem invalid_depth_skips_pair (t : Triangulation) (v0 v1 : Viewpoint)
    (i0 i1 : KpIdx) (rest : List (KpIdx × KpIdx)) (s : PMState)
    (h0 : dictGet (s.innerOf v0) i0 = none)
    (h1 : dictGet (s.innerOf v1) i1 = none)
    (ht : t.triangulate i0 i1 = none) :
    bothObservedLoop t v0 v1 ((i0, i1) :: rest) s =
      bothObservedLoop t v0 v1 rest s := by
  simp only [bothObservedLoop, h0, h1, ht]

/-- Witness for C7 at a concrete input: the always-failing triangulator on
the fresh manager. -/
theorem invalid_depth_skips_pair_witness :
    dictGet (PMState.empty.innerOf 0) 0 = none ∧
    dictGet (PMState.empty.innerOf 1) 0 = none ∧
    Triangulation.triangulate ⟨fun _ _ => none⟩ 0 0 = none ∧
    bothObservedLoop ⟨fun _ _ => none⟩ 0 1 [(0, 0)] PMState.empty =
      bothObservedLoop ⟨fun _ _ => none⟩ 0 1 [] PMState.empty :=
  ⟨by rfl, by rfl, by rfl,
    invalid_depth_skips_pair ⟨fun _ _ => none⟩ 0 1 0 0 [] PMState.empty
      (by rfl) (by rfl) (by rfl)⟩

/-! ## Claim C8 -/

/-- C8: when exactly one endpoint of a pair is bound (to `pidx`), the loop
handles the pair by `associate_existing` alone — uniformly in the
triangulator, so no triangulation happens — creating no landmark (`points`
unchanged), leaving the bound endpoint's binding intact, and binding the
unbound endpoint to the same landmark `pidx`.  The first conjunct covers the
`is_trinagulated0` branch (points.py lines 109-114, first endpoint bound);
the second covers the symmetric `is_trinagulated1` branch (points.py lines
116-121, second endpoint bound), where the source calls
`associate_existing(viewpoint1, viewpoint0, index1, index0)`. -/
theorem one_observed_pure_association (v0 v1 : Viewpoint) (i0 i1 : KpIdx)
    (pidx : PointIdx) (rest : List (KpIdx × KpIdx)) (s : PMState) :
    (dictGet (s.innerOf v0) i0 = some pidx →
      dictGet (s.innerOf v1) i1 = none →
      (∀ t : Triangulation,
        bothObservedLoop t v0 v1 ((i0, i1) :: rest) s =
          bothObservedLoop t v0 v1 rest (associateExisting s v0 v1 i0 i1)) ∧
      (associateExisting s v0 v1 i0 i1).points = s.points ∧
      dictGet ((associateExisting s v0 v1 i0 i1).innerOf v0) i0 = some pidx ∧
      dictGet ((associateExisting s v0 v1 i0 i1).innerOf v1) i1 = some pidx) ∧
    (dictGet (s.innerOf v0) i0 = none →
      dictGet (s.innerOf v1) i1 = some pidx →
      (∀ t : Triangulation,
        bothObservedLoop t v0 v1 ((i0, i1) :: rest) s =
          bothObservedLoop t v0 v1 rest (associateExisting s v1 v0 i1 i0)) ∧
      (associateExisting s v1 v0 i1 i0).points = s.points ∧
      dictGet ((associateExisting s v1 v0 i1 i0).innerOf v1) i1 = some pidx ∧
      dictGet ((associateExisting s v1 v0 i1 i0).innerOf v0) i0 = some pidx) := by
  constructor
  · intro h0 h1
    refine ⟨fun t => by simp only [bothObservedLoop, h0, h1], ?_, ?_, ?_⟩
    · unfold associateExisting
      rw [h0]
      rfl
    · unfold associateExisting
      rw [h0, innerOf_bindKp]
      by_cases hv : v0 = v1
      · have hne : i0 ≠ i1 := by
          intro hi
          rw [hv, hi, h1] at h0
          cases h0
        rw [if_pos hv, ← hv, dictGet_dictAssign_ne _ _ _ _ hne, ← hv] at *
        exact h0
      · rw [if_neg hv, h0]
    · unfold associateExisting
      rw [h0, innerOf_bindKp, if_pos rfl, dictGet_dictAssign_self]
  · intro h0 h1
    refine ⟨fun t => by simp only [bothObservedLoop, h0, h1], ?_, ?_, ?_⟩
    · unfold associateExisting
      rw [h1]
      rfl
    · unfold associateExisting
      rw [h1, innerOf_bindKp]
      by_cases hv : v1 = v0
      · have hne : i1 ≠ i0 := by
          intro hi
          rw [hv, hi, h0] at h1
          cases h1
        rw [if_pos hv, ← hv, dictGet_dictAssign_ne _ _ _ _ hne, ← hv] at *
        exact h1
      · rw [if_neg hv, h1]
    · unfold associateExisting
      rw [h1, innerOf_bindKp, if_pos rfl, dictGet_dictAssign_self]

/-- Witness for C8 at concrete inputs, exercising both branches: first the
state binding keypoint 2 of viewpoint 0 (the pair's first endpoint bound),
then the state binding keypoint 3 of viewpoint 1 (the second endpoint
bound). -/
theorem one_observed_pure_association_witness :
    dictGet ((associateExisting (PMState.empty.bindKp 0 2 7) 0 1 2 3).innerOf 1) 3
        = some 7 ∧
    dictGet ((associateExisting (PMState.empty.bindKp 1 3 9) 1 0 3 2).innerOf 0) 2
        = some 9 :=
  ⟨((one_observed_pure_association 0 1 2 3 7 [] (PMState.empty.bindKp 0 2 7)).1
      (by rfl) (by rfl)).2.2.2,
    ((one_observed_pure_association 0 1 2 3 9 [] (PMState.empty.bindKp 1 3 9)).2
      (by rfl) (by rfl)).2.2.2⟩

/-! ## Claim C10 -/

theorem bothObservedLoop_no_valueError (t : Triangulation) (v0 v1 : Viewpoint) :
    ∀ (pairs : List (KpIdx × KpIdx)) (s s' : PMState),
      bothObservedLoop t v0 v1 pairs s ≠ .error (.valueError, s') := by
  intro pairs
  induction pairs with
  | nil => intro s s' h; cases h
  | cons hd rest ih =>
    intro s s' h
    obtain ⟨i0, i1⟩ := hd
    cases h0 : dictGet (s.innerOf v0) i0 with
    | some p0 =>
      cases h1 : dictGet (s.innerOf v1) i1 with
      | some p1 =>
        cases hw : warnIfIncorrectMatch p0 p1 with
        | ok u =>
          rw [bothObservedLoop] at h
          simp only [h0, h1, hw] at h
          exact ih s s' h
        | error e =>
          rw [bothObservedLoop] at h
          simp only [h0, h1, hw] at h
          unfold warnIfIncorrectMatch at hw
          by_cases hpq : p0 ≠ p1
          · rw [if_pos hpq] at hw
            injection hw with hwe
            rw [← hwe] at h
            injection h with h
            injection h with ha hb
            cases ha
          · rw [if_neg hpq] at hw
            cases hw
      | none =>
        rw [bothObservedLoop] at h
        simp only [h0, h1] at h
        exact ih _ s' h
    | none =>
      cases h1 : dictGet (s.innerOf v1) i1 with
      | some p1 =>
        rw [bothObservedLoop] at h
        simp only [h0, h1] at h
        exact ih _ s' h
      | none =>
        cases ht : t.triangulate i0 i1 with
        | none =>
          rw [bothObservedLoop] at h
          simp only [h0, h1, ht] at h
          exact ih s s' h
        | some p =>
          rw [bothObservedLoop] at h
          simp only [h0, h1, ht] at h
          exact ih _ s' h

/-- C10: `PointManager.triangulate` raises `ValueError` — with the manager
left exactly as it was — precisely when neither viewpoint has any prior
binding in `point_indices`; whenever at least one viewpoint has been
observed, no `ValueError` arises. -/
theorem pm_triangulate_requires_observed (t : Triangulation)
    (v0 v1 : Viewpoint) (is0 is1 : List KpIdx) (s s' : PMState) :
    pmTriangulate t v0 v1 is0 is1 s = .error (.valueError, s') ↔
      (s' = s ∧ dictMem s.pointIndices v0 = false ∧
        dictMem s.pointIndices v1 = false) := by
  cases h0 : dictMem s.pointIndices v0 with
  | true =>
    cases h1 : dictMem s.pointIndices v1 with
    | true =>
      have hred : pmTriangulate t v0 v1 is0 is1 s =
          bothObservedLoop t v0 v1 (is0.zip is1) s := by
        simp [pmTriangulate, h0, h1]
      rw [hred]
      constructor
      · intro h
        exact absurd h (bothObservedLoop_no_valueError t v0 v1 _ s s')
      · rintro ⟨-, h, -⟩
        cases h
    | false =>
      have hred : pmTriangulate t v0 v1 is0 is1 s =
          .ok (eitherOneObservedLoop t v0 v1 (is0.zip is1) s) := by
        simp [pmTriangulate, h0, h1]
      rw [hred]
      constructor
      · intro h
        cases h
      · rintro ⟨-, h, -⟩
        cases h
  | false =>
    cases h1 : dictMem s.pointIndices v1 with
    | true =>
      have hred : pmTriangulate t v0 v1 is0 is1 s =
          .ok (eitherOneObservedLoop t v1 v0 (is1.zip is0) s) := by
        simp [pmTriangulate, h0, h1]
      rw [hred]
      constructor
      · intro h
        cases h
      · rintro ⟨-, -, h⟩
        cases h
    | false =>
      have hred : pmTriangulate t v0 v1 is0 is1 s =
          .error (.valueError, s) := by
        simp [pmTriangulate, h0, h1]
      rw [hred]
      constructor
      · intro h
        injection h with h
        injection h with ha hb
        exact ⟨hb.symm, rfl, rfl⟩
      · rintro ⟨h, -, -⟩
        rw [h]

/-! ## Claim C2 -/

theorem tryInitFirstTwo_error (E : Externals) (cfg : VOCfg) (s : VOState)
    (v1 : Viewpoint) (kd1 : KD) (e : VOErr) (s' : VOState)
    (h : tryInitFirstTwo E cfg s v1 kd1 = .error (e, s')) : s' = s := by
  simp only [tryInitFirstTwo] at h
  split at h
  · injection h with h
    injection h with ha hb
    exact hb.symm
  · cases h

theorem tryAddKeyframe_error (E : Externals) (cfg : VOCfg) (s : VOState)
    (v1 : Viewpoint) (kd1 : KD) (e : VOErr) (s' : VOState)
    (h : tryAddKeyframe E cfg s v1 kd1 = .error (e, s')) : s' = s := by
  simp only [tryAddKeyframe] at h
  split at h
  · injection h with h
    injection h with ha hb
    exact hb.symm
  · split at h
    · injection h with h
      injection h with ha hb
      exact hb.symm
    · cases h

theorem voAdd_error (E : Externals) (cfg : VOCfg) (mk : Nat) (s : VOState)
    (img : Img) (e : VOErr) (s' : VOState)
    (h : voAdd E cfg mk s img = .error (e, s')) : s' = s := by
  simp only [voAdd] at h
  split at h
  · cases h
  · split at h
    next e2 heq =>
      injection h with h2
      rw [h2] at heq
      split at heq
      · cases heq
      · split at heq
        · exact tryInitFirstTwo_error _ _ _ _ _ _ _ heq
        · exact tryAddKeyframe_error _ _ _ _ _ _ _ heq
    next eb heq =>
      cases h

/-- C2: a frame that fails with `NotEnoughInliers` — whether in the
bootstrap attempt or in the tracking step (no active viewpoint with enough
matches, or PnP failure) — mutates nothing: the state carried out of the
raise is exactly the entry state, so `export_points`/`export_poses` are
unchanged, no viewpoint is registered and no binding is added. -/
theorem failed_frame_atomic (E : Externals) (cfg : VOCfg) (mk : Nat)
    (s : VOState) (img : Img) (e : VOErr) (s' : VOState)
    (h : voAdd E cfg mk s img = .error (e, s')) :
    s' = s ∧ exportPoints s' = exportPoints s ∧
      exportPoses s' = exportPoses s := by
  have hs := voAdd_error E cfg mk s img e s' h
  exact ⟨hs, by rw [hs], by rw [hs]⟩

/-- Witness for C2: a concrete frame whose matcher finds no matches fails
with `NotEnoughInliers` and leaves the state untouched. -/
theorem failed_frame_atomic_witness :
    voAdd demoExternals demoCfg 8
        { VOState.empty with activeViewpoints := [0] } 999 =
      .error (.notEnoughInliers, { VOState.empty with activeViewpoints := [0] }) ∧
    ({ VOState.empty with activeViewpoints := [0] } : VOState) =
        { VOState.empty with activeViewpoints := [0] } ∧
      exportPoints { VOState.empty with activeViewpoints := [0] } =
        exportPoints { VOState.empty with activeViewpoints := [0] } ∧
      exportPoses { VOState.empty with activeViewpoints := [0] } =
        exportPoses { VOState.empty with activeViewpoints := [0] } :=
  ⟨by rfl,
    failed_frame_atomic demoExternals demoCfg 8
      { VOState.empty with activeViewpoints := [0] } 999 .notEnoughInliers
      { VOState.empty with activeViewpoints := [0] } (by rfl)⟩

/-! ## Claim C3 -/

theorem tryInitFirstTwo_active (E : Externals) (cfg : VOCfg) (s : VOState)
    (v1 : Viewpoint) (kd1 : KD) (s1 : VOState)
    (h : tryInitFirstTwo E cfg s v1 kd1 = .ok s1) :
    s1.activeViewpoints = s.activeViewpoints := by
  simp only [tryInitFirstTwo] at h
  split at h
  · cases h
  · injection h with h
    rw [← h]

theorem tryAddKeyframe_active (E : Externals) (cfg : VOCfg) (s : VOState)
    (v1 : Viewpoint) (kd1 : KD) (s1 : VOState)
    (h : tryAddKeyframe E cfg s v1 kd1 = .ok s1) :
    s1.activeViewpoints = s.activeViewpoints := by
  simp only [tryAddKeyframe] at h
  split at h
  · cases h
  · split at h
    · cases h
    · injection h with h
      rw [← h]

/-- C3 (amended).  `add` itself never evicts: every successful, non-dropped
frame appends exactly the new sequential viewpoint to the active window (so
after `max_active + k` successful adds with no `try_remove` calls the window
holds `max_active + k` members, not `max_active` — see the counterexample).
Eviction is the separate `try_remove`: a no-op returning `False` while the
count is within `max_active_keyframes`, and otherwise it removes exactly the
oldest viewpoint (FIFO), which then no longer appears among the active
viewpoints — so track-graph queries restricted to active viewpoints no
longer reach its bindings — while `export_poses` (and `export_points`) are
untouched, keeping every viewpoint ever created. -/
theorem window_eviction_behavior :
    (∀ (E : Externals) (cfg : VOCfg) (mk : Nat) (s : VOState) (img : Img)
      (s' : VOState) (v : Int), voAdd E cfg mk s img = .ok (s', v) → v ≠ -1 →
      s'.activeViewpoints = s.activeViewpoints ++ [s.nextViewpoint]) ∧
    (∀ (cfg : VOCfg) (s : VOState),
      s.activeViewpoints.length ≤ cfg.maxActiveKeyframes →
      tryRemove cfg s = (false, s)) ∧
    (∀ (cfg : VOCfg) (s : VOState),
      cfg.maxActiveKeyframes < s.activeViewpoints.length →
      (tryRemove cfg s).1 = true ∧
      (tryRemove cfg s).2.activeViewpoints = s.activeViewpoints.drop 1 ∧
      exportPoses (tryRemove cfg s).2 = exportPoses s ∧
      exportPoints (tryRemove cfg s).2 = exportPoints s ∧
      (s.activeViewpoints.Nodup →
        s.activeViewpoints.headD 0 ∉ (tryRemove cfg s).2.activeViewpoints)) := by
  refine ⟨?_, ?_, ?_⟩
  · intro E cfg mk s img s' v h hv
    simp only [voAdd] at h
    split at h
    · injection h with h
      injection h with ha hb
      exact absurd hb.symm hv
    · split at h
      next e2 heq =>
        cases h
      next eb heq =>
        injection h with h
        injection h with ha hb
        have hact : eb.activeViewpoints = s.activeViewpoints := by
          split at heq
          · injection heq with heq
            rw [← heq]
            rfl
          · split at heq
            · exact tryInitFirstTwo_active _ _ _ _ _ _ heq
            · exact tryAddKeyframe_active _ _ _ _ _ _ heq
        rw [← ha]
        split
        · rw [runBa]
          simp only
          rw [hact]
        · simp only
          rw [hact]
  · intro cfg s h
    simp [tryRemove, h]
  · intro cfg s h
    have hnle : ¬(s.activeViewpoints.length ≤ cfg.maxActiveKeyframes) :=
      not_le.mpr h
    have hred : tryRemove cfg s =
        (true, { s with activeViewpoints := s.activeViewpoints.drop 1 }) := by
      simp [tryRemove, hnle]
    refine ⟨by rw [hred], by rw [hred], by rw [hred]; rfl,
      by rw [hred]; rfl, ?_⟩
    intro hnd
    have h2 : (tryRemove cfg s).2.activeViewpoints =
        s.activeViewpoints.drop 1 := by
      rw [hred]
    rw [h2]
    cases hav : s.activeViewpoints with
    | nil =>
      rw [hav] at h
      simp at h
    | cons x rest =>
      simp only [List.headD_cons, List.drop_succ_cons, List.drop_zero]
      rw [hav] at hnd
      exact (List.nodup_cons.mp hnd).1

/-- Witness for C3: a window of two viewpoints over `max_active_keyframes = 1`
is trimmed FIFO by `try_remove`, poses intact. -/
theorem window_eviction_behavior_witness :
    (tryRemove demoCfg { VOState.empty with activeViewpoints := [0, 1] }).1 = true ∧
    (tryRemove demoCfg { VOState.empty with activeViewpoints := [0, 1] }).2.activeViewpoints = [1] ∧
    exportPoses (tryRemove demoCfg { VOState.empty with activeViewpoints := [0, 1] }).2 =
      exportPoses { VOState.empty with activeViewpoints := [0, 1] } := by
  have h := window_eviction_behavior.2.2 demoCfg
    { VOState.empty with activeViewpoints := [0, 1] } (by decide)
  exact ⟨h.1, by rw [h.2.1]; rfl, h.2.2.1⟩

/-- Counterexample for C3 as stated: with `max_active_keyframes = 1`, after
`max_active + 1 = 2` successful `add` calls the active window reports two
members, not one — `add` performs no eviction (`try_remove` is never called
inside it). -/
theorem window_unbounded_cex :
    demoRun2.toOption.map (fun r => r.1.activeViewpoints) = some [0, 1] ∧
    demoCfg.maxActiveKeyframes = 1 :=
  ⟨by rfl, by rfl⟩

/-! ## Claim C9 -/

/-- C9 (amended): `add` drops the frame — returning the `-1` sentinel after
printing the error, with the state exactly unchanged — if and only if the
number of extracted keypoints is at most `min_keypoints` (default 8).  The
source's check is `len(keypoints) <= min_keypoints`, so a frame with exactly
the minimum count is also dropped, not only those below it. -/
theorem insufficient_keypoints_boundary (E : Externals) (cfg : VOCfg)
    (mk : Nat) (s : VOState) (img : Img) :
    voAdd E cfg mk s img = .ok (s, -1) ↔ (E.extract img).1.length ≤ mk := by
  constructor
  · intro h
    by_cases hc : (E.extract img).1.length ≤ mk
    · exact hc
    · exfalso
      simp only [voAdd, if_neg hc] at h
      split at h
      next e2 heq =>
        cases h
      next eb heq =>
        injection h with h
        injection h with ha hb
        omega
  · intro h
    simp [voAdd, h]

/-- Counterexample for C9 as stated: a frame with exactly eight keypoints —
at least the minimum count of 8 — is nevertheless dropped with the
insufficient-keypoints sentinel. -/
theorem exact_min_keypoints_dropped_cex :
    voAdd demoExternals8 demoCfg 8 VOState.empty 0 = .ok (VOState.empty, -1) ∧
    (demoExternals8.extract 0).1.length = 8 :=
  ⟨by rfl, by rfl⟩

/-! ## Claim C6 -/

theorem foldl_pair_split {γ α β : Type} (l : List γ) (f : α → γ → α)
    (g : β → γ → β) (a : α) (b : β) :
    l.foldl (fun mm x => (f mm.1 x, g mm.2 x)) (a, b) =
      (l.foldl f a, l.foldl g b) := by
  induction l generalizing a b with
  | nil => rfl
  | cons hd tl ih => exact ih (f a hd) (g b hd)

theorem dictAssign_fresh {α β : Type} [DecidableEq α] (m : List (α × β))
    (k : α) (v : β) (h : k ∉ dictKeys m) : dictAssign m k v = m ++ [(k, v)] := by
  induction m with
  | nil => rfl
  | cons hd tl ih =>
    obtain ⟨k0, v0⟩ := hd
    simp only [dictKeys, List.map_cons, List.mem_cons] at h
    push_neg at h
    simp only [dictAssign, if_neg (fun he : k0 = k => h.1 he.symm),
      List.cons_append, List.cons.injEq, true_and]
    exact ih h.2

theorem foldl_dictAssign_fresh {α β : Type} [DecidableEq α] :
    ∀ (pairs init : List (α × β)), (dictKeys pairs).Nodup →
      (∀ k, k ∈ dictKeys pairs → k ∉ dictKeys init) →
      pairs.foldl (fun d p => dictAssign d p.1 p.2) init = init ++ pairs := by
  intro pairs
  induction pairs with
  | nil =>
    intro init h1 h2
    simp
  | cons hd tl ih =>
    intro init h1 h2
    obtain ⟨k, v⟩ := hd
    simp only [dictKeys, List.map_cons, List.nodup_cons] at h1
    simp only [List.foldl_cons]
    rw [dictAssign_fresh init k v (h2 k (by simp [dictKeys]))]
    rw [ih (init ++ [(k, v)]) h1.2 ?_]
    · simp
    · intro k' hk'
      simp only [dictKeys, List.map_append, List.mem_append, List.map_cons,
        List.map_nil, List.mem_singleton]
      push_neg
      refine ⟨h2 k' (by
        simp only [dictKeys, List.map_cons, List.mem_cons]
        exact Or.inr hk'), ?_⟩
      intro he
      rw [he] at hk'
      exact h1.1 hk'

theorem foldl_dictAssign_nil {α β : Type} [DecidableEq α]
    (pairs : List (α × β)) (h : (dictKeys pairs).Nodup) :
    pairs.foldl (fun d p => dictAssign d p.1 p.2) [] = pairs := by
  rw [foldl_dictAssign_fresh pairs [] h (fun k _ => by simp [dictKeys])]
  rfl

theorem nodup_map_fst_zip {α β : Type} :
    ∀ (a : List α) (b : List β), a.Nodup → ((a.zip b).map Prod.fst).Nodup := by
  intro a
  induction a with
  | nil =>
    intro b h
    simp
  | cons x xs ih =>
    intro b h
    cases b with
    | nil => simp
    | cons y ys =>
      simp only [List.zip_cons_cons, List.map_cons, List.nodup_cons]
      refine ⟨fun hmem => ?_, ih ys (List.nodup_cons.mp h).2⟩
      obtain ⟨p, hp, he⟩ := List.mem_map.mp hmem
      obtain ⟨pa, pb⟩ := p
      have hmem2 := (List.of_mem_zip hp).1
      have he' : pa = x := he
      rw [he'] at hmem2
      exact (List.nodup_cons.mp h).1 hmem2

theorem generateHashes_nodup (nh n : Nat) : (generateHashes nh n).Nodup :=
  (List.nodup_range n).map (add_right_injective nh)

theorem generateHashes_length (nh n : Nat) :
    (generateHashes nh n).length = n := by
  simp [generateHashes]

theorem pkm_fold_component :
    ∀ (mv : List (KpIdx × KpIdx)) (ph : List PointHash) (acc : PKMap)
      (sel : (KpIdx × KpIdx) → KpIdx),
      (mv.zip ph).foldl (fun m p => dictAssign m p.2 (sel p.1)) acc =
        (ph.zip (mv.map sel)).foldl (fun m p => dictAssign m p.1 p.2) acc := by
  intro mv
  induction mv with
  | nil =>
    intro ph acc sel
    cases ph <;> rfl
  | cons x xs ih =>
    intro ph acc sel
    cases ph with
    | nil => rfl
    | cons h hs =>
      simp only [List.zip_cons_cons, List.map_cons, List.foldl_cons]
      exact ih hs _ sel

/-- C6: on a successful `ONE_KEYFRAME → BOOTSTRAPPED` transition (at least
`min_matches` matches against the sole active viewpoint `v0`), the reference
viewpoint's stored pose is `Pose.identity`, matches with invalid triangulated
depth are discarded (`matches01[depth_mask]`), and — the batch triangulator
returning exactly one point per surviving match (`hcompact`, the contract the
source asserts) — exactly one fresh landmark hash is minted per surviving
match, bound to both of its endpoints, with the point dict storing exactly
that match's triangulated point under that hash. -/
theorem bootstrap_transition (E : Externals) (cfg : VOCfg) (s : VOState)
    (v1 : Viewpoint) (kd1 : KD) (v0 : Viewpoint)
    (m01 : List (KpIdx × KpIdx)) (pose1 : Pose) (td : List Pt × List Bool)
    (hv0 : v0 = s.activeViewpoints.headD 0)
    (hm01 : m01 = E.matcher (s.kdOf v0) kd1)
    (hpose : pose1 = E.estimatePoseChange (s.kdOf v0).keypoints kd1.keypoints m01)
    (htd : td = E.triangulate Pose.identity pose1 (s.kdOf v0).keypoints
      kd1.keypoints m01)
    (hm : cfg.minMatches ≤ m01.length)
    (hcompact : td.1.length = (maskFilter m01 td.2).length)
    (hne : v1 ≠ v0) :
    tryInitFirstTwo E cfg s v1 kd1 = .ok { s with
        pointKeypointMaps := dictAssign
          (dictAssign s.pointKeypointMaps v0
            ((generateHashes s.nextHash td.1.length).zip
              ((maskFilter m01 td.2).map Prod.fst)))
          v1
          ((generateHashes s.nextHash td.1.length).zip
            ((maskFilter m01 td.2).map Prod.snd)),
        poses := dictAssign (dictAssign s.poses v0 Pose.identity) v1 pose1,
        pointDict := (generateHashes s.nextHash td.1.length).zip td.1,
        nextHash := s.nextHash + td.1.length } ∧
      dictGet (dictAssign (dictAssign s.poses v0 Pose.identity) v1 pose1) v0 =
        some Pose.identity ∧
      (generateHashes s.nextHash td.1.length).Nodup ∧
      (generateHashes s.nextHash td.1.length).length =
        (maskFilter m01 td.2).length := by
  have hnlt : ¬((E.matcher (s.kdOf (s.activeViewpoints.headD 0)) kd1).length <
      cfg.minMatches) := by
    rw [← hv0, ← hm01]
    exact not_lt.mpr hm
  refine ⟨?_, ?_, generateHashes_nodup _ _, by rw [generateHashes_length, hcompact]⟩
  · simp only [tryInitFirstTwo, initPointKeypointMap]
    rw [if_neg hnlt, ← hv0, ← hm01, ← hpose, ← htd]
    rw [foldl_pair_split ((maskFilter m01 td.2).zip
        (generateHashes s.nextHash td.1.length))
      (fun m p => dictAssign m p.2 p.1.1) (fun m p => dictAssign m p.2 p.1.2)
      [] []]
    rw [pkm_fold_component (maskFilter m01 td.2)
        (generateHashes s.nextHash td.1.length) [] Prod.fst,
      pkm_fold_component (maskFilter m01 td.2)
        (generateHashes s.nextHash td.1.length) [] Prod.snd]
    rw [foldl_dictAssign_nil ((generateHashes s.nextHash td.1.length).zip
        ((maskFilter m01 td.2).map Prod.fst))
        (nodup_map_fst_zip _ _ (generateHashes_nodup _ _)),
      foldl_dictAssign_nil ((generateHashes s.nextHash td.1.length).zip
        ((maskFilter m01 td.2).map Prod.snd))
        (nodup_map_fst_zip _ _ (generateHashes_nodup _ _)),
      foldl_dictAssign_nil ((generateHashes s.nextHash td.1.length).zip td.1)
        (nodup_map_fst_zip _ _ (generateHashes_nodup _ _))]
  · rw [dictGet_dictAssign_ne _ _ _ _ (Ne.symm hne), dictGet_dictAssign_self]

/-- Witness for C6: the bootstrap transition evaluated on a concrete state
with one active viewpoint, two scripted matches, both depths valid. -/
theorem bootstrap_transition_witness :
    tryInitFirstTwo demoExternals demoCfg
      { activeViewpoints := [0], nextViewpoint := 1, pointKeypointMaps := [],
        pointDict := [],
        kds := [(0, { keypoints := (List.range 9).map
                        (fun i => ((i : Int), (100 : Int))),
                      descriptors := [100] })],
        poses := [(0, Pose.identity)], images := [(0, 100)], nextHash := 0 }
      1
      { keypoints := (List.range 9).map (fun i => ((i : Int), (101 : Int))),
        descriptors := [101] } =
    .ok { activeViewpoints := [0], nextViewpoint := 1,
          pointKeypointMaps := [(0, [(0, 0), (1, 1)]), (1, [(0, 0), (1, 1)])],
          pointDict := [(0, (1, 1, 1)), (1, (1, 1, 1))],
          kds := [(0, { keypoints := (List.range 9).map
                          (fun i => ((i : Int), (100 : Int))),
                        descriptors := [100] })],
          poses := [(0, Pose.identity), (1, Pose.identity)],
          images := [(0, 100)], nextHash := 2 } ∧
    dictGet (dictAssign (dictAssign
        ([(0, Pose.identity)] : List (Viewpoint × Pose)) 0 Pose.identity)
        1 Pose.identity) 0 = some Pose.identity := by
  have h := bootstrap_transition demoExternals demoCfg
    { activeViewpoints := [0], nextViewpoint := 1, pointKeypointMaps := [],
      pointDict := [],
      kds := [(0, { keypoints := (List.range 9).map
                      (fun i => ((i : Int), (100 : Int))),
                    descriptors := [100] })],
      poses := [(0, Pose.identity)], images := [(0, 100)], nextHash := 0 }
    1
    { keypoints := (List.range 9).map (fun i => ((i : Int), (101 : Int))),
      descriptors := [101] }
    0 [(0, 0), (1, 1)] Pose.identity ([(1, 1, 1), (1, 1, 1)], [true, true])
    (by rfl) (by rfl) (by rfl) (by rfl) (by decide) (by decide) (by decide)
  exact ⟨by rw [h.1]; rfl, h.2.1⟩

/-! ## Claim C5: reduce_redundancy is order independent -/

theorem foldl_flatMap {α β γ : Type} (l : List α) (f : α → List β)
    (step : γ → β → γ) (i : γ) :
    (l.flatMap f).foldl step i =
      l.foldl (fun acc a => (f a).foldl step acc) i := by
  induction l generalizing i with
  | nil => rfl
  | cons hd tl ih =>
    simp only [List.flatMap_cons, List.foldl_append, List.foldl_cons]
    exact ih _

theorem flatMap_congr {α β : Type} (l : List α) (f g : α → List β)
    (h : ∀ a, a ∈ l → f a = g a) : l.flatMap f = l.flatMap g := by
  induction l with
  | nil => rfl
  | cons hd tl ih =>
    simp only [List.flatMap_cons]
    rw [h hd (by simp), ih (fun a ha => h a (by simp [ha]))]

theorem reduceRedundancy_keySeq (rows cols data : List Nat) :
    reduceRedundancy rows cols data =
      (keySeq cols data).foldl
        (fun rw ju => reduceKey cols data rw ju.1 ju.2) rows := by
  unfold reduceRedundancy keySeq reduceAlong
  rw [foldl_flatMap]
  congr 1
  funext acc j
  rw [List.foldl_map]

theorem mergeLoop_closed : ∀ (rs : List Nat) (rows : List Nat) (l0 : Nat),
    mergeLoop rows rs l0 = rows.map (fun x => if x ∈ rs then l0 else x) := by
  intro rs
  induction rs with
  | nil =>
    intro rows l0
    simp [mergeLoop]
  | cons r rest ih =>
    intro rows l0
    rw [mergeLoop, ih, relabel, List.map_map]
    apply List.map_congr_left
    intro x hx
    simp only [Function.comp_apply]
    by_cases hr : x = r
    · subst hr
      by_cases hl : l0 ∈ rest <;> simp [hl]
    · by_cases hm : x ∈ rest <;> simp [hr, hm]

theorem getD_map_lt {α β : Type} (f : α → β) (da : α) (db : β) :
    ∀ (l : List α) (p : Nat), p < l.length →
      (l.map f).getD p db = f (l.getD p da) := by
  intro l
  induction l with
  | nil =>
    intro p hp
    cases hp
  | cons x xs ih =>
    intro p hp
    cases p with
    | zero => rfl
    | succ p' =>
      simp only [List.map_cons, List.getD_cons_succ]
      exact ih p' (by simpa using hp)

theorem mem_iff_getD : ∀ (l : List Nat) (x : Nat),
    x ∈ l ↔ ∃ p, p < l.length ∧ l.getD p 0 = x := by
  intro l
  induction l with
  | nil => simp
  | cons y ys ih =>
    intro x
    simp only [List.mem_cons, ih x]
    constructor
    · rintro (he | ⟨p, hp, hg⟩)
      · exact ⟨0, by simp, he.symm⟩
      · exact ⟨p + 1, by simpa using hp, by simpa using hg⟩
    · rintro ⟨p, hp, hg⟩
      cases p with
      | zero => exact .inl hg.symm
      | succ p' =>
        exact .inr ⟨p', by simpa using hp, by simpa using hg⟩

theorem mem_maskFilter_nat : ∀ (xs : List Nat) (mask : List Bool) (x : Nat),
    x ∈ maskFilter xs mask ↔
      ∃ p, p < xs.length ∧ p < mask.length ∧ mask.getD p false = true ∧
        xs.getD p 0 = x := by
  intro xs
  induction xs with
  | nil =>
    intro mask x
    simp [maskFilter]
  | cons y ys ih =>
    intro mask x
    cases mask with
    | nil => simp [maskFilter]
    | cons b bs =>
      have hstep : maskFilter (y :: ys) (b :: bs) =
          (if b then [y] else []) ++ maskFilter ys bs := by
        cases b <;> simp [maskFilter]
      rw [hstep]
      simp only [List.mem_append, ih bs x]
      constructor
      · rintro (hy | ⟨p, h1, h2, h3, h4⟩)
        · refine ⟨0, by simp, by simp, ?_, ?_⟩
          · cases b with
            | true => rfl
            | false => simp at hy
          · cases b with
            | true => simpa using (List.mem_singleton.mp (by simpa using hy)).symm
            | false => simp at hy
        · exact ⟨p + 1, by simpa using h1, by simpa using h2, by simpa using h3,
            by simpa using h4⟩
      · rintro ⟨p, h1, h2, h3, h4⟩
        cases p with
        | zero =>
          left
          simp only [List.getD_cons_zero] at h3 h4
          rw [h3]
          simp [h4]
        | succ p' =>
          right
          exact ⟨p', by simpa using h1, by simpa using h2, by simpa using h3,
            by simpa using h4⟩

theorem keyMask_length (cols data : List Nat) (j u : Nat) :
    (keyMask cols data j u).length = min cols.length data.length := by
  simp [keyMask]

theorem keyMask_getD : ∀ (cols data : List Nat) (j u p : Nat),
    p < cols.length → p < data.length →
    (keyMask cols data j u).getD p false =
      (cols.getD p 0 == j && data.getD p 0 == u) := by
  intro cols
  induction cols with
  | nil =>
    intro data j u p hp
    cases hp
  | cons c cs ih =>
    intro data j u p hp hq
    cases data with
    | nil => cases hq
    | cons d ds =>
      cases p with
      | zero => rfl
      | succ p' =>
        simp only [keyMask, List.zipWith_cons_cons, List.getD_cons_succ]
        exact ih ds j u p' (by simpa using hp) (by simpa using hq)

theorem merge_label_eq (l0 : Nat) (rest : List Nat) (a b : Nat) :
    ((if a ∈ rest then l0 else a) = (if b ∈ rest then l0 else b)) ↔
      ((a ∈ l0 :: rest ∧ b ∈ l0 :: rest) ∨
        (a ∉ l0 :: rest ∧ b ∉ l0 :: rest ∧ a = b)) := by
  by_cases ha : a ∈ rest <;> by_cases hb : b ∈ rest <;>
    by_cases ha0 : a = l0 <;> by_cases hb0 : b = l0 <;>
      simp [ha, hb, ha0, hb0, List.mem_cons, eq_comm] <;> omega

theorem mem_sel_iff (cols data rows : List Nat) (m : Nat)
    (hc : cols.length = m) (hd : data.length = m) (hr : rows.length = m)
    (j u x : Nat) :
    x ∈ maskFilter rows (keyMask cols data j u) ↔
      ∃ p, p < m ∧ cols.getD p 0 = j ∧ data.getD p 0 = u ∧
        rows.getD p 0 = x := by
  rw [mem_maskFilter_nat]
  constructor
  · rintro ⟨p, h1, h2, h3, h4⟩
    rw [keyMask_getD cols data j u p (by omega) (by omega)] at h3
    simp only [Bool.and_eq_true, beq_iff_eq] at h3
    exact ⟨p, by omega, h3.1, h3.2, h4⟩
  · rintro ⟨p, h1, h2, h3, h4⟩
    refine ⟨p, by omega, ?_, ?_, h4⟩
    · rw [keyMask_length]
      omega
    · rw [keyMask_getD cols data j u p (by omega) (by omega)]
      rw [Bool.and_eq_true, beq_iff_eq, beq_iff_eq]
      exact ⟨h2, h3⟩

theorem reduceKey_labelEquiv (m : Nat) (prm : Nat → Nat)
    (cols1 data1 cols2 data2 : List Nat)
    (hc1 : cols1.length = m) (hd1 : data1.length = m)
    (hc2 : cols2.length = m) (hd2 : data2.length = m)
    (hpc : posCorr m prm cols1 data1 cols2 data2)
    (rows1 rows2 : List Nat) (hr1 : rows1.length = m) (hr2 : rows2.length = m)
    (heq : labelEquiv m prm rows1 rows2) (j u : Nat) :
    (reduceKey cols1 data1 rows1 j u).length = m ∧
    (reduceKey cols2 data2 rows2 j u).length = m ∧
    labelEquiv m prm (reduceKey cols1 data1 rows1 j u)
      (reduceKey cols2 data2 rows2 j u) := by
  obtain ⟨hfwd, hsur⟩ := hpc
  have hmem : ∀ p, p < m →
      (rows1.getD p 0 ∈ maskFilter rows1 (keyMask cols1 data1 j u) ↔
        rows2.getD (prm p) 0 ∈ maskFilter rows2 (keyMask cols2 data2 j u)) := by
    intro p hp
    rw [mem_sel_iff cols1 data1 rows1 m hc1 hd1 hr1,
      mem_sel_iff cols2 data2 rows2 m hc2 hd2 hr2]
    constructor
    · rintro ⟨s, hs, hcj, hdu, hlab⟩
      refine ⟨prm s, (hfwd s hs).1, ?_, ?_, ?_⟩
      · rw [(hfwd s hs).2.1, hcj]
      · rw [(hfwd s hs).2.2, hdu]
      · exact (heq s p hs hp).mp hlab
    · rintro ⟨s', hs', hcj, hdu, hlab⟩
      obtain ⟨s, hs, hps⟩ := hsur s' hs'
      rw [← hps] at hcj hdu hlab
      refine ⟨s, hs, ?_, ?_, ?_⟩
      · rw [← (hfwd s hs).2.1]
        exact hcj
      · rw [← (hfwd s hs).2.2]
        exact hdu
      · exact (heq s p hs hp).mpr hlab
  have hkey : (∃ p, p < m ∧ cols1.getD p 0 = j ∧ data1.getD p 0 = u) ↔
      (∃ p', p' < m ∧ cols2.getD p' 0 = j ∧ data2.getD p' 0 = u) := by
    constructor
    · rintro ⟨p, hp, hcj, hdu⟩
      exact ⟨prm p, (hfwd p hp).1, by rw [(hfwd p hp).2.1, hcj],
        by rw [(hfwd p hp).2.2, hdu]⟩
    · rintro ⟨p', hp', hcj, hdu⟩
      obtain ⟨p, hp, hps⟩ := hsur p' hp'
      rw [← hps] at hcj hdu
      exact ⟨p, hp, by rw [← (hfwd p hp).2.1]; exact hcj,
        by rw [← (hfwd p hp).2.2]; exact hdu⟩
  cases hsel1 : maskFilter rows1 (keyMask cols1 data1 j u) with
  | nil =>
    cases hsel2 : maskFilter rows2 (keyMask cols2 data2 j u) with
    | nil =>
      simp only [reduceKey, hsel1, hsel2]
      exact ⟨hr1, hr2, heq⟩
    | cons l2 rest2 =>
      exfalso
      have hx : l2 ∈ maskFilter rows2 (keyMask cols2 data2 j u) := by
        rw [hsel2]
        simp
      rw [mem_sel_iff cols2 data2 rows2 m hc2 hd2 hr2] at hx
      obtain ⟨p', hp', hcj, hdu, -⟩ := hx
      obtain ⟨p, hp, hcj', hdu'⟩ := hkey.mpr ⟨p', hp', hcj, hdu⟩
      have hx1 : rows1.getD p 0 ∈ maskFilter rows1 (keyMask cols1 data1 j u) := by
        rw [mem_sel_iff cols1 data1 rows1 m hc1 hd1 hr1]
        exact ⟨p, hp, hcj', hdu', rfl⟩
      rw [hsel1] at hx1
      cases hx1
  | cons l1 rest1 =>
    cases hsel2 : maskFilter rows2 (keyMask cols2 data2 j u) with
    | nil =>
      exfalso
      have hx : l1 ∈ maskFilter rows1 (keyMask cols1 data1 j u) := by
        rw [hsel1]
        simp
      rw [mem_sel_iff cols1 data1 rows1 m hc1 hd1 hr1] at hx
      obtain ⟨p, hp, hcj, hdu, -⟩ := hx
      obtain ⟨p', hp', hcj', hdu'⟩ := hkey.mp ⟨p, hp, hcj, hdu⟩
      have hx2 : rows2.getD p' 0 ∈ maskFilter rows2 (keyMask cols2 data2 j u) := by
        rw [mem_sel_iff cols2 data2 rows2 m hc2 hd2 hr2]
        exact ⟨p', hp', hcj', hdu', rfl⟩
      rw [hsel2] at hx2
      cases hx2
    | cons l2 rest2 =>
      simp only [reduceKey, hsel1, hsel2]
      rw [mergeLoop_closed, mergeLoop_closed]
      refine ⟨by simpa using hr1, by simpa using hr2, ?_⟩
      intro p q hp hq
      have hpm : prm p < m := (hfwd p hp).1
      have hqm : prm q < m := (hfwd q hq).1
      rw [getD_map_lt _ 0 0 rows1 p (by omega),
        getD_map_lt _ 0 0 rows1 q (by omega),
        getD_map_lt _ 0 0 rows2 (prm p) (by omega),
        getD_map_lt _ 0 0 rows2 (prm q) (by omega)]
      rw [merge_label_eq l1 rest1, merge_label_eq l2 rest2]
      rw [← hsel1, ← hsel2]
      rw [hmem p hp, hmem q hq, heq p q hp hq]

theorem foldKeys_labelEquiv (m : Nat) (prm : Nat → Nat)
    (cols1 data1 cols2 data2 : List Nat)
    (hc1 : cols1.length = m) (hd1 : data1.length = m)
    (hc2 : cols2.length = m) (hd2 : data2.length = m)
    (hpc : posCorr m prm cols1 data1 cols2 data2) :
    ∀ (ks : List (Nat × Nat)) (rows1 rows2 : List Nat),
      rows1.length = m → rows2.length = m → labelEquiv m prm rows1 rows2 →
      (ks.foldl (fun rw ju => reduceKey cols1 data1 rw ju.1 ju.2) rows1).length = m ∧
      (ks.foldl (fun rw ju => reduceKey cols2 data2 rw ju.1 ju.2) rows2).length = m ∧
      labelEquiv m prm
        (ks.foldl (fun rw ju => reduceKey cols1 data1 rw ju.1 ju.2) rows1)
        (ks.foldl (fun rw ju => reduceKey cols2 data2 rw ju.1 ju.2) rows2) := by
  intro ks
  induction ks with
  | nil =>
    intro rows1 rows2 hr1 hr2 heq
    exact ⟨hr1, hr2, heq⟩
  | cons ju ks ih =>
    intro rows1 rows2 hr1 hr2 heq
    obtain ⟨h1, h2, h3⟩ := reduceKey_labelEquiv m prm cols1 data1 cols2 data2
      hc1 hd1 hc2 hd2 hpc rows1 rows2 hr1 hr2 heq ju.1 ju.2
    exact ih _ _ h1 h2 h3

theorem le_foldr_max : ∀ (l : List Nat) (x : Nat), x ∈ l → x ≤ l.foldr max 0 := by
  intro l
  induction l with
  | nil =>
    intro x hx
    cases hx
  | cons y ys ih =>
    intro x hx
    rcases List.mem_cons.mp hx with he | hm
    · subst he
      simp [List.foldr_cons, le_max_iff]
    · simp only [List.foldr_cons, le_max_iff]
      exact .inr (ih x hm)

theorem foldr_max_cases : ∀ (l : List Nat), l.foldr max 0 = 0 ∨ l.foldr max 0 ∈ l := by
  intro l
  induction l with
  | nil => exact .inl rfl
  | cons y ys ih =>
    simp only [List.foldr_cons]
    rcases le_or_lt y (ys.foldr max 0) with hle | hlt
    · rw [max_eq_right hle]
      rcases ih with h0 | hm
      · exact .inl h0
      · exact .inr (List.mem_cons.mpr (.inr hm))
    · rw [max_eq_left hlt.le]
      exact .inr (List.mem_cons.mpr (.inl rfl))

theorem foldr_max_congr (l1 l2 : List Nat) (h : ∀ x, x ∈ l1 ↔ x ∈ l2) :
    l1.foldr max 0 = l2.foldr max 0 := by
  apply le_antisymm
  · rcases foldr_max_cases l1 with h0 | hm
    · omega
    · exact le_foldr_max l2 _ ((h _).mp hm)
  · rcases foldr_max_cases l2 with h0 | hm
    · omega
    · exact le_foldr_max l1 _ ((h _).mpr hm)

theorem uniqueSorted_congr (l1 l2 : List Nat) (h : ∀ x, x ∈ l1 ↔ x ∈ l2) :
    uniqueSorted l1 = uniqueSorted l2 := by
  have hp : List.Perm l1.dedup l2.dedup := by
    apply List.perm_of_nodup_nodup_toFinset_eq (List.nodup_dedup l1)
      (List.nodup_dedup l2)
    ext x
    simp [List.mem_toFinset, List.mem_dedup, h x]
  have hps : List.Perm (List.insertionSort (· ≤ ·) l1.dedup)
      (List.insertionSort (· ≤ ·) l2.dedup) :=
    ((List.perm_insertionSort _ _).trans hp).trans
      (List.perm_insertionSort _ _).symm
  exact List.eq_of_perm_of_sorted hps (List.sorted_insertionSort _ _)
    (List.sorted_insertionSort _ _)

theorem mem_colValues_iff (cols data : List Nat) (m : Nat)
    (hc : cols.length = m) (hd : data.length = m) (j u : Nat) :
    u ∈ colValues cols data j ↔
      ∃ p, p < m ∧ cols.getD p 0 = j ∧ data.getD p 0 = u := by
  unfold colValues
  rw [mem_maskFilter_nat]
  constructor
  · rintro ⟨p, h1, h2, h3, h4⟩
    rw [getD_map_lt (fun c => c == j) 0 false cols p (by
      rw [List.length_map] at h2
      omega)] at h3
    exact ⟨p, by omega, by simpa using h3, h4⟩
  · rintro ⟨p, h1, h2, h3⟩
    refine ⟨p, by omega, by rw [List.length_map]; omega, ?_, h3⟩
    rw [getD_map_lt (fun c => c == j) 0 false cols p (by omega)]
    rw [beq_iff_eq]
    exact h2

theorem keySeq_congr (m : Nat) (prm : Nat → Nat)
    (cols1 data1 cols2 data2 : List Nat)
    (hc1 : cols1.length = m) (hd1 : data1.length = m)
    (hc2 : cols2.length = m) (hd2 : data2.length = m)
    (hpc : posCorr m prm cols1 data1 cols2 data2) :
    keySeq cols1 data1 = keySeq cols2 data2 := by
  obtain ⟨hfwd, hsur⟩ := hpc
  have hcolmem : ∀ x, x ∈ cols1 ↔ x ∈ cols2 := by
    intro x
    rw [mem_iff_getD, mem_iff_getD]
    constructor
    · rintro ⟨p, hp, hg⟩
      exact ⟨prm p, by rw [hc2]; exact (hfwd p (by omega)).1,
        by rw [(hfwd p (by omega)).2.1]; exact hg⟩
    · rintro ⟨p', hp', hg⟩
      obtain ⟨p, hp, hps⟩ := hsur p' (by omega)
      refine ⟨p, by omega, ?_⟩
      rw [← (hfwd p hp).2.1, hps]
      exact hg
  unfold keySeq
  rw [foldr_max_congr cols1 cols2 hcolmem]
  apply flatMap_congr
  intro j hj
  congr 1
  apply uniqueSorted_congr
  intro u
  rw [mem_colValues_iff cols1 data1 m hc1 hd1,
    mem_colValues_iff cols2 data2 m hc2 hd2]
  constructor
  · rintro ⟨p, hp, hcj, hdu⟩
    exact ⟨prm p, (hfwd p hp).1, by rw [(hfwd p hp).2.1]; exact hcj,
      by rw [(hfwd p hp).2.2]; exact hdu⟩
  · rintro ⟨p', hp', hcj, hdu⟩
    obtain ⟨p, hp, hps⟩ := hsur p' hp'
    rw [← hps] at hcj hdu
    exact ⟨p, hp, by rw [← (hfwd p hp).2.1]; exact hcj,
      by rw [← (hfwd p hp).2.2]; exact hdu⟩

theorem entryRows_succ (n : Nat) : entryRows (n + 1) = entryRows n ++ [n, n] := by
  unfold entryRows
  rw [List.range_succ, List.flatMap_append]
  rfl

theorem entryRows_length : ∀ n : Nat, (entryRows n).length = 2 * n := by
  intro n
  induction n with
  | zero => rfl
  | succ k ih =>
    rw [entryRows_succ, List.length_append, ih]
    simp
    omega

theorem entryRows_getD : ∀ (n p : Nat), p < 2 * n →
    (entryRows n).getD p 0 = p / 2 := by
  intro n
  induction n with
  | zero =>
    intro p hp
    omega
  | succ k ih =>
    intro p hp
    rw [entryRows_succ]
    by_cases hlt : p < 2 * k
    · rw [List.getD_append _ _ _ _ (by rw [entryRows_length]; omega)]
      exact ih p hlt
    · rw [List.getD_append_right _ _ _ _ (by rw [entryRows_length]; omega)]
      rw [entryRows_length]
      have hcase : p - 2 * k = 0 ∨ p - 2 * k = 1 := by omega
      rcases hcase with hc | hc <;> rw [hc] <;> simp <;> omega

theorem entryCols_cons (e : MatchEdge) (es : List MatchEdge) :
    entryCols (e :: es) = e.1.1 :: e.2.1 :: entryCols es := by
  simp [entryCols]

theorem entryData_cons (e : MatchEdge) (es : List MatchEdge) :
    entryData (e :: es) = e.1.2 :: e.2.2 :: entryData es := by
  simp [entryData]

theorem entryCols_length : ∀ edges : List MatchEdge,
    (entryCols edges).length = 2 * edges.length := by
  intro edges
  induction edges with
  | nil => rfl
  | cons e es ih =>
    rw [entryCols_cons, List.length_cons, List.length_cons, ih]
    simp
    omega

theorem entryData_length : ∀ edges : List MatchEdge,
    (entryData edges).length = 2 * edges.length := by
  intro edges
  induction edges with
  | nil => rfl
  | cons e es ih =>
    rw [entryData_cons, List.length_cons, List.length_cons, ih]
    simp
    omega

theorem entryCols_getD : ∀ (edges : List MatchEdge) (p : Nat),
    p < 2 * edges.length →
    (entryCols edges).getD p 0 =
      colAt (edges.getD (p / 2) (((0, 0), (0, 0)) : MatchEdge)) (p % 2) := by
  intro edges
  induction edges with
  | nil =>
    intro p hp
    simp at hp
  | cons e es ih =>
    intro p hp
    rw [entryCols_cons]
    match p with
    | 0 => rfl
    | 1 => rfl
    | (p' + 2) =>
      rw [List.getD_cons_succ, List.getD_cons_succ]
      rw [ih p' (by simp at hp ⊢; omega)]
      have e1 : (p' + 2) / 2 = p' / 2 + 1 := by omega
      have e2 : (p' + 2) % 2 = p' % 2 := by omega
      rw [e1, e2, List.getD_cons_succ]

theorem entryData_getD : ∀ (edges : List MatchEdge) (p : Nat),
    p < 2 * edges.length →
    (entryData edges).getD p 0 =
      dataAt (edges.getD (p / 2) (((0, 0), (0, 0)) : MatchEdge)) (p % 2) := by
  intro edges
  induction edges with
  | nil =>
    intro p hp
    simp at hp
  | cons e es ih =>
    intro p hp
    rw [entryData_cons]
    match p with
    | 0 => rfl
    | 1 => rfl
    | (p' + 2) =>
      rw [List.getD_cons_succ, List.getD_cons_succ]
      rw [ih p' (by simp at hp ⊢; omega)]
      have e1 : (p' + 2) / 2 = p' / 2 + 1 := by omega
      have e2 : (p' + 2) % 2 = p' % 2 := by omega
      rw [e1, e2, List.getD_cons_succ]

theorem entryCols_snoc (es : List MatchEdge) (e : MatchEdge) :
    entryCols (es ++ [e]) = entryCols es ++ [e.1.1, e.2.1] := by
  unfold entryCols
  rw [List.flatMap_append]
  rfl

theorem entryData_snoc (es : List MatchEdge) (e : MatchEdge) :
    entryData (es ++ [e]) = entryData es ++ [e.1.2, e.2.2] := by
  unfold entryData
  rw [List.flatMap_append]
  rfl

theorem buildMatchMatrix_closed : ∀ edges : List MatchEdge,
    buildMatchMatrix edges =
      ⟨entryRows edges.length, entryCols edges, entryData edges,
        edges.length⟩ := by
  intro edges
  induction edges using List.reverseRecOn with
  | nil => rfl
  | append_singleton es e ih =>
    unfold buildMatchMatrix at ih ⊢
    rw [List.foldl_append, ih, List.foldl_cons, List.foldl_nil]
    unfold MatchMatrix.add
    simp only [List.length_singleton, List.length_append]
    congr 1
    · rw [entryRows_succ]
      rfl
    · rw [entryCols_snoc]
      rfl
    · rw [entryData_snoc]
      rfl

theorem trackLabels_closed (edges : List MatchEdge) :
    trackLabels edges = reduceRedundancy (entryRows edges.length)
      (entryCols edges) (entryData edges) := by
  unfold trackLabels
  rw [buildMatchMatrix_closed]

/-- C5: resolving one and the same batch of pairwise match edges in any
permutation yields the same partition of observations into tracks.  `g` is a
permutation of the edge positions (`e2` holds at position `g k` the edge `e1`
holds at `k`); the reduced row labels `MatchMatrix.matrix` computes via
`reduce_redundancy` assign edges `k` and `l` the same track in the first
batch exactly when their images are assigned the same track in the permuted
batch — the track partition is identical up to relabeling. -/
theorem track_partition_order_independent
    (e1 e2 : List MatchEdge) (g : Nat → Nat) (n : Nat)
    (hn1 : e1.length = n) (hn2 : e2.length = n)
    (hglt : ∀ k, k < n → g k < n)
    (hginj : ∀ k l, k < n → l < n → g k = g l → k = l)
    (hgsur : ∀ k', k' < n → ∃ k, k < n ∧ g k = k')
    (hget : ∀ k, k < n →
      e2.getD (g k) (((0, 0), (0, 0)) : MatchEdge) =
        e1.getD k (((0, 0), (0, 0)) : MatchEdge))
    (k l : Nat) (hk : k < n) (hl : l < n) :
    (trackLabel e1 k = trackLabel e1 l ↔
      trackLabel e2 (g k) = trackLabel e2 (g l)) := by
  have hc1 : (entryCols e1).length = 2 * n := by rw [entryCols_length, hn1]
  have hd1 : (entryData e1).length = 2 * n := by rw [entryData_length, hn1]
  have hc2 : (entryCols e2).length = 2 * n := by rw [entryCols_length, hn2]
  have hd2 : (entryData e2).length = 2 * n := by rw [entryData_length, hn2]
  have hr1 : (entryRows n).length = 2 * n := entryRows_length n
  have hpc : posCorr (2 * n) (fun p => 2 * g (p / 2) + p % 2)
      (entryCols e1) (entryData e1) (entryCols e2) (entryData e2) := by
    constructor
    · intro p hp
      have hp2 : p / 2 < n := by omega
      have hg2 : g (p / 2) < n := hglt _ hp2
      have hprmlt : 2 * g (p / 2) + p % 2 < 2 * n := by omega
      refine ⟨hprmlt, ?_, ?_⟩
      · show (entryCols e2).getD (2 * g (p / 2) + p % 2) 0 =
          (entryCols e1).getD p 0
        rw [entryCols_getD e2 _ (by rw [hn2]; exact hprmlt),
          entryCols_getD e1 p (by rw [hn1]; exact hp)]
        have ediv : (2 * g (p / 2) + p % 2) / 2 = g (p / 2) := by omega
        have emod : (2 * g (p / 2) + p % 2) % 2 = p % 2 := by omega
        rw [ediv, emod, hget _ hp2]
      · show (entryData e2).getD (2 * g (p / 2) + p % 2) 0 =
          (entryData e1).getD p 0
        rw [entryData_getD e2 _ (by rw [hn2]; exact hprmlt),
          entryData_getD e1 p (by rw [hn1]; exact hp)]
        have ediv : (2 * g (p / 2) + p % 2) / 2 = g (p / 2) := by omega
        have emod : (2 * g (p / 2) + p % 2) % 2 = p % 2 := by omega
        rw [ediv, emod, hget _ hp2]
    · intro p' hp'
      obtain ⟨q, hq, hgq⟩ := hgsur (p' / 2) (by omega)
      refine ⟨2 * q + p' % 2, by omega, ?_⟩
      show 2 * g ((2 * q + p' % 2) / 2) + (2 * q + p' % 2) % 2 = p'
      have ediv : (2 * q + p' % 2) / 2 = q := by omega
      have emod : (2 * q + p' % 2) % 2 = p' % 2 := by omega
      rw [ediv, emod, hgq]
      omega
  have hinit : labelEquiv (2 * n) (fun p => 2 * g (p / 2) + p % 2)
      (entryRows n) (entryRows n) := by
    intro p q hp hq
    show (entryRows n).getD p 0 = (entryRows n).getD q 0 ↔
      (entryRows n).getD (2 * g (p / 2) + p % 2) 0 =
        (entryRows n).getD (2 * g (q / 2) + q % 2) 0
    have hp2 : p / 2 < n := by omega
    have hq2 : q / 2 < n := by omega
    have hgp := hglt _ hp2
    have hgq := hglt _ hq2
    rw [entryRows_getD n p hp, entryRows_getD n q hq,
      entryRows_getD n _ (by omega : 2 * g (p / 2) + p % 2 < 2 * n),
      entryRows_getD n _ (by omega : 2 * g (q / 2) + q % 2 < 2 * n)]
    have ep : (2 * g (p / 2) + p % 2) / 2 = g (p / 2) := by omega
    have eq2 : (2 * g (q / 2) + q % 2) / 2 = g (q / 2) := by omega
    rw [ep, eq2]
    constructor
    · intro h
      rw [h]
    · intro h
      exact hginj _ _ hp2 hq2 h
  have hks := keySeq_congr (2 * n) (fun p => 2 * g (p / 2) + p % 2)
    (entryCols e1) (entryData e1) (entryCols e2) (entryData e2)
    hc1 hd1 hc2 hd2 hpc
  obtain ⟨-, -, hequiv⟩ := foldKeys_labelEquiv (2 * n)
    (fun p => 2 * g (p / 2) + p % 2)
    (entryCols e1) (entryData e1) (entryCols e2) (entryData e2)
    hc1 hd1 hc2 hd2 hpc (keySeq (entryCols e1) (entryData e1))
    (entryRows n) (entryRows n) hr1 hr1 hinit
  have ht1 : trackLabels e1 =
      (keySeq (entryCols e1) (entryData e1)).foldl
        (fun rw ju => reduceKey (entryCols e1) (entryData e1) rw ju.1 ju.2)
        (entryRows n) := by
    rw [trackLabels_closed, hn1, reduceRedundancy_keySeq]
  have ht2 : trackLabels e2 =
      (keySeq (entryCols e1) (entryData e1)).foldl
        (fun rw ju => reduceKey (entryCols e2) (entryData e2) rw ju.1 ju.2)
        (entryRows n) := by
    rw [trackLabels_closed, hn2, reduceRedundancy_keySeq, hks]
  have hinst := hequiv (2 * k) (2 * l) (by omega) (by omega)
  have h1 : 2 * k / 2 = k := by omega
  have h2 : 2 * k % 2 = 0 := by omega
  have h3 : 2 * l / 2 = l := by omega
  have h4 : 2 * l % 2 = 0 := by omega
  simp only [h1, h2, h3, h4, Nat.add_zero] at hinst
  unfold trackLabel
  rw [ht1, ht2]
  exact hinst

/-- Witness for C5: a two-edge batch and its swap, at concrete inputs. -/
theorem track_partition_order_independent_witness :
    trackLabel [((0, 0), (1, 0)), ((0, 1), (1, 2))] 0 =
        trackLabel [((0, 0), (1, 0)), ((0, 1), (1, 2))] 1 ↔
      trackLabel [((0, 1), (1, 2)), ((0, 0), (1, 0))] 1 =
        trackLabel [((0, 1), (1, 2)), ((0, 0), (1, 0))] 0 :=
  track_partition_order_independent
    [((0, 0), (1, 0)), ((0, 1), (1, 2))]
    [((0, 1), (1, 2)), ((0, 0), (1, 0))]
    (fun k => 1 - k) 2 rfl rfl (by decide)
    (fun k l hk hl he => by
      have he' : 1 - k = 1 - l := he
      omega)
    (fun k' hk' => ⟨1 - k', by omega, by show 1 - (1 - k') = k'; omega⟩)
    (by decide) 0 1 (by decide) (by decide)
